import Mathlib

/-!
Verification development for the TPU rewrite pass
(tensorflow/compiler/mlir/tensorflow/transforms/tpu_rewrite_pass.cc).

The pass rewrites tf_device.launch_func operations into TPU runtime
operations (compile, compile-succeeded-assert, execute / parallel_execute,
device-scoped launch wrappers).  Below we give a shallow embedding of the
data model (MLIR-style operations with operands, results, attributes and
nested regions) and of every function of the source file the claims refer
to, followed by theorems settling the claims.

External collaborators (proto parsers, the device-assignment resolver, the
per-logical-device input extractor, serializers) are modelled as components
of an explicit record of external functions, faithful to their interfaces.
-/

namespace TPURewrite

/-- Tensorflow data types produced by type conversion (types.pb.h, external).
Only the constructors exercised by this pass are modelled. -/
inductive DataType where
  | DT_FLOAT
  | DT_INT32
  | DT_INT64
  | DT_BOOL
  | DT_STRING
  | DT_RESOURCE
deriving DecidableEq, Repr

/-- Element types of MLIR tensor types appearing in this pass.  The
unsupported constructor stands for any element type on which
tensorflow::ConvertToDataType fails. -/
inductive ElemType where
  | f32
  | i32
  | i64
  | i1
  | strT
  | resource
  | unsupported (tag : Nat)
deriving DecidableEq, Repr

/-- MLIR tensor types: ranked with a dimension list (a negative entry is a
dynamic dimension, as in ShapedType) or unranked. -/
inductive MType where
  | tensor (shape : Option (List Int)) (elem : ElemType)
deriving DecidableEq, Repr

/-- tensorflow::ConvertToDataType (convert_type.h, external): succeeds
exactly on the supported element types. -/
def ConvertToDataType : MType → Option DataType
  | .tensor _ .f32 => some .DT_FLOAT
  | .tensor _ .i32 => some .DT_INT32
  | .tensor _ .i64 => some .DT_INT64
  | .tensor _ .i1 => some .DT_BOOL
  | .tensor _ .strT => some .DT_STRING
  | .tensor _ .resource => some .DT_RESOURCE
  | .tensor _ (.unsupported _) => none

/-- tensorflow::TensorShapeProto, restricted to the fields this pass sets:
either unknown rank or a list of (possibly negative i.e. dynamic) sizes. -/
inductive ShapeProto where
  | unknownRank
  | dims (ds : List Int)
deriving DecidableEq, Repr

/-- tensorflow::PartialTensorShape(proto).IsFullyDefined(): known rank and
every dimension nonnegative. -/
def ShapeProto.isFullyDefined : ShapeProto → Bool
  | .unknownRank => false
  | .dims ds => ds.all (fun d => 0 ≤ d)

/-- ConvertToTensorShapeProto on a ranked MLIR shape (convert_tensor.h,
external): dimension-for-dimension copy, dynamic sizes kept negative. -/
def ConvertToTensorShapeProto (shape : List Int) : ShapeProto :=
  ShapeProto.dims shape

/-- An SSA value: either result number idx of the operation with the given
id, or a block argument.  Values carry their MLIR type. -/
inductive Value where
  | res (op : Nat) (idx : Nat) (ty : MType)
  | arg (n : Nat) (ty : MType)
deriving DecidableEq, Repr

/-- The type of a value. -/
def Value.ty : Value → MType
  | .res _ _ ty => ty
  | .arg _ ty => ty

/-- The id of the operation a value is a result of (none for a block
argument). -/
def Value.refOp : Value → Option Nat
  | .res i _ _ => some i
  | .arg _ _ => none

/-- A type whose shape is statically fully defined: ranked with every
dimension nonnegative. -/
def MType.staticallyShaped : MType → Bool
  | .tensor (some ds) _ => ds.all (fun d => 0 ≤ d)
  | .tensor none _ => false

/-- Elements of MLIR array attributes used by this pass (strings for the
sharding and padding arrays; an integer constructor provides non-string
elements for the malformed-attribute paths). -/
inductive AttrElem where
  | str (s : String)
  | int (n : Int)
deriving DecidableEq, Repr

/-- Attribute values used by this pass: strings, integers, flat symbol
references, arrays, and the dictionary attribute (alias name mapped to a
string array) set on replicate operations. -/
inductive AttrValue where
  | str (s : String)
  | int (n : Int)
  | sym (s : String)
  | arr (xs : List AttrElem)
  | dict (entries : List (String × List String))
deriving DecidableEq, Repr

mutual
/-- An MLIR operation: unique id, operation name, operands, result types,
attributes, and nested regions (each region modelled as its single block,
an operation list). -/
inductive Op : Type where
  | mk (opId : Nat) (name : String) (operands : List Value)
       (resultTypes : List MType) (attrs : List (String × AttrValue))
       (regions : Regions) : Op
deriving DecidableEq, Repr

/-- The list of regions of an operation. -/
inductive Regions : Type where
  | nil : Regions
  | cons (r : Ops) (rs : Regions) : Regions
deriving DecidableEq, Repr

/-- A block: ordered list of operations. -/
inductive Ops : Type where
  | nil : Ops
  | cons (o : Op) (os : Ops) : Ops
deriving DecidableEq, Repr
end

def Op.opId : Op → Nat
  | .mk i _ _ _ _ _ => i

def Op.name : Op → String
  | .mk _ n _ _ _ _ => n

def Op.operands : Op → List Value
  | .mk _ _ ops _ _ _ => ops

def Op.resultTypes : Op → List MType
  | .mk _ _ _ tys _ _ => tys

def Op.attrs : Op → List (String × AttrValue)
  | .mk _ _ _ _ a _ => a

def Op.regions : Op → Regions
  | .mk _ _ _ _ _ rs => rs

/-- getNumResults. -/
def Op.numResults (o : Op) : Nat := o.resultTypes.length

/-- getNumOperands. -/
def Op.numOperands (o : Op) : Nat := o.operands.length

/-- getOperandTypes. -/
def Op.operandTypes (o : Op) : List MType := o.operands.map Value.ty

/-- op.getAttr(name): first binding of the attribute name. -/
def Op.getAttr (o : Op) (a : String) : Option AttrValue :=
  (o.attrs.find? (fun p => p.1 == a)).map Prod.snd

/-- getAttrOfType of StringAttr: null both when absent and when the
attribute has a different kind. -/
def Op.getStrAttr (o : Op) (a : String) : Option String :=
  match o.getAttr a with
  | some (.str s) => some s
  | _ => none

/-- getAttrOfType of IntegerAttr. -/
def Op.getIntAttr (o : Op) (a : String) : Option Int :=
  match o.getAttr a with
  | some (.int n) => some n
  | _ => none

/-- getAttrOfType of ArrayAttr. -/
def Op.getArrAttr (o : Op) (a : String) : Option (List AttrElem) :=
  match o.getAttr a with
  | some (.arr xs) => some xs
  | _ => none

/-- getAttrOfType of FlatSymbolRefAttr. -/
def Op.getSymAttr (o : Op) (a : String) : Option String :=
  match o.getAttr a with
  | some (.sym s) => some s
  | _ => none

/-- op.setAttr(name, value): removes any existing binding and appends the
new one. -/
def Op.setAttr (o : Op) (a : String) (v : AttrValue) : Op :=
  match o with
  | .mk i n ops tys at_ rs =>
      .mk i n ops tys ((at_.filter (fun p => p.1 ≠ a)) ++ [(a, v)]) rs

/-- op.getResult i as a Value (the type is looked up in the result type
list; an out-of-range index, which is undefined behaviour in MLIR, yields
a placeholder type so that the reference itself stays observable). -/
def Op.resultVal (o : Op) (i : Nat) : Value :=
  Value.res o.opId i ((o.resultTypes.get? i).getD (MType.tensor none .i1))

/-- op.getResults(). -/
def Op.results (o : Op) : List Value :=
  (List.range o.numResults).map o.resultVal

def Ops.ofList : List Op → Ops
  | [] => .nil
  | o :: os => .cons o (Ops.ofList os)

def Ops.toList : Ops → List Op
  | .nil => []
  | .cons o os => o :: os.toList

def Ops.append : Ops → Ops → Ops
  | .nil, ys => ys
  | .cons x xs, ys => .cons x (xs.append ys)

instance : Append Ops := ⟨Ops.append⟩

def Regions.ofList : List Ops → Regions
  | [] => .nil
  | r :: rs => .cons r (Regions.ofList rs)

def Regions.toList : Regions → List Ops
  | .nil => []
  | .cons r rs => r :: rs.toList

/-- Number of regions of an operation. -/
def Regions.length : Regions → Nat
  | .nil => 0
  | .cons _ rs => rs.length + 1

mutual
/-- Rewrites every operand (a use of a value) in an operation, recursively
through its regions; the model of Value::replaceAllUsesWith-style edits. -/
def Op.mapOperands (f : Value → Value) : Op → Op
  | .mk i n ops tys a rs => .mk i n (ops.map f) tys a (Regions.mapOperands f rs)

def Regions.mapOperands (f : Value → Value) : Regions → Regions
  | .nil => .nil
  | .cons r rs => .cons (Ops.mapOperands f r) (Regions.mapOperands f rs)

def Ops.mapOperands (f : Value → Value) : Ops → Ops
  | .nil => .nil
  | .cons o os => .cons (Op.mapOperands f o) (Ops.mapOperands f os)
end

mutual
/-- Number of operations (at any nesting depth) whose name equals s. -/
def Op.countName (s : String) : Op → Nat
  | .mk _ n _ _ _ rs => (if n = s then 1 else 0) + Regions.countName s rs

def Regions.countName (s : String) : Regions → Nat
  | .nil => 0
  | .cons r rs => Ops.countName s r + Regions.countName s rs

def Ops.countName (s : String) : Ops → Nat
  | .nil => 0
  | .cons o os => Op.countName s o + Ops.countName s os
end

mutual
/-- Number of uses of the value v (occurrences as an operand), at any
nesting depth. -/
def Op.usesCount (v : Value) : Op → Nat
  | .mk _ _ ops _ _ rs => ops.count v + Regions.usesCount v rs

def Regions.usesCount (v : Value) : Regions → Nat
  | .nil => 0
  | .cons r rs => Ops.usesCount v r + Regions.usesCount v rs

def Ops.usesCount (v : Value) : Ops → Nat
  | .nil => 0
  | .cons o os => Op.usesCount v o + Ops.usesCount v os
end

mutual
/-- Does an operation with the given id occur (at any nesting depth)? -/
def Op.containsId (i : Nat) : Op → Bool
  | .mk j _ _ _ _ rs => (j == i) || Regions.containsId i rs

def Regions.containsId (i : Nat) : Regions → Bool
  | .nil => false
  | .cons r rs => Ops.containsId i r || Regions.containsId i rs

def Ops.containsId (i : Nat) : Ops → Bool
  | .nil => false
  | .cons o os => Op.containsId i o || Ops.containsId i os
end

mutual
/-- Erases every operation (at any nesting depth) whose name equals s;
the model of the final placeholder sweep. -/
def Op.eraseAllName (s : String) : Op → Op
  | .mk i n ops tys a rs => .mk i n ops tys a (Regions.eraseAllName s rs)

def Regions.eraseAllName (s : String) : Regions → Regions
  | .nil => .nil
  | .cons r rs => .cons (Ops.eraseAllName s r) (Regions.eraseAllName s rs)

def Ops.eraseAllName (s : String) : Ops → Ops
  | .nil => .nil
  | .cons o os =>
      if o.name = s then Ops.eraseAllName s os
      else .cons (Op.eraseAllName s o) (Ops.eraseAllName s os)
end

/-! ## External proto records and collaborator interfaces -/

/-- xla::OpSharding (xla_data.pb.h, external): kept abstract, only its
identity as a parsed record matters to this pass. -/
structure OpSharding where
  raw : String
deriving DecidableEq, Repr

/-- tensorflow::tpu::PaddingMap (dynamic_padding.pb.h, external). -/
structure PaddingMap where
  raw : String
deriving DecidableEq, Repr

/-- xla::DeviceAssignmentProto (xla_data.pb.h, external): copied verbatim
into the compile metadata, never inspected by this pass. -/
structure DeviceAssignmentProto where
  raw : String
deriving DecidableEq, Repr

/-- Modelled from the spec: xla::DebugOptions::StepMarkerLocation
(xla.pb.h, external) - the known enumeration the step-marker string
attribute must parse against. -/
inductive StepMarkerLocation where
  | STEP_MARK_AT_ENTRY
  | STEP_MARK_AT_TOP_LEVEL_WHILE_LOOP
  | STEP_MARK_AT_SECOND_LEVEL_WHILE_LOOP
  | STEP_MARK_NONE
deriving DecidableEq, Repr

/-- Modelled from the spec: proto enum-name parsing for
StepMarkerLocation (StepMarkerLocation_Parse): exact enumerator names
parse, anything else fails. -/
def StepMarkerLocation_Parse : String → Option StepMarkerLocation
  | "STEP_MARK_AT_ENTRY" => some .STEP_MARK_AT_ENTRY
  | "STEP_MARK_AT_TOP_LEVEL_WHILE_LOOP" => some .STEP_MARK_AT_TOP_LEVEL_WHILE_LOOP
  | "STEP_MARK_AT_SECOND_LEVEL_WHILE_LOOP" => some .STEP_MARK_AT_SECOND_LEVEL_WHILE_LOOP
  | "STEP_MARK_NONE" => some .STEP_MARK_NONE
  | _ => none

/-- Argument kind in TPUCompileMetadataProto::Arg. -/
inductive ArgKind where
  | PARAMETER
  | VARIABLE
deriving DecidableEq, Repr

/-- One Arg entry of TPUCompileMetadataProto. -/
structure MetadataArg where
  dtype : DataType
  kind : ArgKind
  shape : ShapeProto
  sharding : OpSharding
deriving DecidableEq, Repr

/-- One retval entry of TPUCompileMetadataProto. -/
structure MetadataRetval where
  sharding : OpSharding
deriving DecidableEq, Repr

/-- tensorflow::tpu::TPUCompileMetadataProto, restricted to the fields this
pass sets (compile_metadata.pb.h, external). -/
structure TPUCompileMetadataProto where
  num_replicas : Int
  num_cores_per_replica : Int
  step_marker_location : StepMarkerLocation
  padding_maps : List PaddingMap
  device_assignment : Option DeviceAssignmentProto
  args : List MetadataArg
  retvals : List MetadataRetval
deriving DecidableEq, Repr

/-- A function of the source module, as seen by the closure extractor:
its symbol name, the symbolic references occurring in its body in use
order (SymbolTable::getSymbolUses), and an abstract body payload that
cloning copies verbatim. -/
structure FuncM where
  name : String
  refs : List String
  payload : Nat
deriving DecidableEq, Repr

/-- A module as seen by the closure extractor: module attributes and the
symbol table of functions in insertion order. -/
structure ModuleM where
  attrs : List (String × AttrValue)
  funcs : List FuncM
deriving DecidableEq, Repr

/-- SymbolTable::lookup by name. -/
def ModuleM.lookupFunc (m : ModuleM) (n : String) : Option FuncM :=
  m.funcs.find? (fun f => f.name == n)

/-- ModuleOp::getAttr. -/
def ModuleM.getAttr (m : ModuleM) (a : String) : Option AttrValue :=
  (m.attrs.find? (fun p => p.1 == a)).map Prod.snd

/-- The device-assignment result of the external resolver
GetTPUCompilationAndExecutionDevices (tpu_rewrite_device_util.h):
one compilation device, a replica-major table of execution devices, and
an optional device-assignment proto. -/
structure TPUDeviceAssignment where
  compilation_device : String
  execution_devices : List (List String)
  xla_device_assignment : Option DeviceAssignmentProto

/-- The external collaborators of the pass, specified only at their
interfaces: proto deserialization, serializers and printers, the
device-assignment resolver, the per-logical-device input extractor, the
logical-core device alias, and the module device inventory reader. -/
structure Externals where
  parseOpSharding : String → Option OpSharding
  parsePaddingMap : String → Option PaddingMap
  serializeMetadata : TPUCompileMetadataProto → String
  metadataDebugString : TPUCompileMetadataProto → String
  printModule : ModuleM → String
  extractInputsForLogicalDevices : Nat → Op → List (List Value)
  getTPUCompilationAndExecutionDevices :
    List String → Int → Int → Except String TPUDeviceAssignment
  getDeviceAliasForLogicalCore : Nat → String
  getDevicesFromOp : ModuleM → Except String (List String)

/-! ## Diagnostic message formats (the formatv templates of the source) -/

/-- CreateMissingAttributeMsg. -/
def missingAttributeMsg (attrName : String) : String :=
  "requires attribute \x27" ++ attrName ++ "\x27"

/-- kBadStringArrayElementMsg instantiated. -/
def badStringArrayElementMsg (name : String) (index : Nat) : String :=
  "bad \x27" ++ name ++ "\x27 attribute at index " ++ toString index ++ ", not a string"

/-- kBadArrayElementMsg instantiated. -/
def badArrayElementMsg (name : String) (index : Nat) (value target : String) : String :=
  "bad \x27" ++ name ++ "\x27 attribute at index " ++ toString index ++ " with value \x27"
    ++ value ++ "\x27: failed to parse to " ++ target

/-- kBadArrayAttrLengthMsg instantiated. -/
def badArrayAttrLengthMsg (name : String) (expected actual : Nat) : String :=
  "bad \x27" ++ name ++ "\x27 attribute, expected array attribute of size "
    ++ toString expected ++ ", got size " ++ toString actual

/-! ## Closure extractor (EncapsulateFuncAndSerialize) -/

/-- SymbolTable::insert name uniquing: if the base name is taken, try
base_0, base_1, ... until a free name is found. -/
def uniqueSymbolName (taken : List String) (base : String) : String :=
  if base ∈ taken then
    (((List.range (taken.length + 1)).map
        (fun k => base ++ "_" ++ toString k)).find?
      (fun cand => cand ∉ taken)).getD base
  else base

/-- SymbolTable::insert on the destination module: appends the function,
uniquing its name on collision. -/
def ModuleM.insertFunc (m : ModuleM) (f : FuncM) : ModuleM :=
  { m with funcs :=
      m.funcs ++ [{ f with name := uniqueSymbolName (m.funcs.map FuncM.name) f.name }] }

/-- The work-list loop of EncapsulateFuncAndSerialize.  The work list is a
stack (SmallVector: pop_back_val pops the most recently pushed element);
its top is the head of the list.  Fuel models the unbounded source loop;
exhaustion (None) corresponds to non-termination of the source loop. -/
def encapsulateLoop (src : ModuleM) (entryName : String) :
    Nat → List FuncM → ModuleM → Option ModuleM
  | 0, _, _ => none
  | _ + 1, [], dest => some dest
  | fuel + 1, func :: rest, dest =>
    -- Skip functions that have already been cloned into the new module.
    if (dest.lookupFunc func.name).isSome then
      encapsulateLoop src entryName fuel rest dest
    else
      -- Push every symbol use of the original function that resolves to a
      -- function of the source symbol table (use order; stack discipline).
      let pushes := (func.refs.filterMap src.lookupFunc).reverse
      let clone := if func.name = entryName then { func with name := "main" } else func
      encapsulateLoop src entryName fuel (pushes ++ rest) (dest.insertFunc clone)

/-- EncapsulateFuncAndSerialize: checks and propagates the
version-compatibility attribute, runs the work-list clone loop starting
from the entry function, and serializes the destination module.  Returns
the destination module together with its text serialization. -/
def EncapsulateFuncAndSerialize (ext : Externals) (fuel : Nat) (src : ModuleM)
    (entry_func : FuncM) : Except String (ModuleM × String) :=
  match src.getAttr "tf.versions" with
  | none => .error (missingAttributeMsg "tf.versions")
  | some versions_attr =>
    match encapsulateLoop src entry_func.name fuel [entry_func]
        { attrs := [("tf.versions", versions_attr)], funcs := [] } with
    | none => .error "closure extraction did not terminate"
    | some dest => .ok (dest, ext.printModule dest)

/-! ## Compile metadata construction -/

/-- SetMetadataProtoStepMarkerLocation: reads the step_marker_location
string attribute; empty defaults to STEP_MARK_AT_ENTRY; otherwise the
value must parse against the enumeration. -/
def SetMetadataProtoStepMarkerLocation (op : Op) : Except String StepMarkerLocation :=
  match op.getStrAttr "step_marker_location" with
  | none => .error (missingAttributeMsg "step_marker_location")
  | some s =>
    if s = "" then .ok .STEP_MARK_AT_ENTRY
    else
      match StepMarkerLocation_Parse s with
      | some location => .ok location
      | none =>
        .error ("bad \x27step_marker_location\x27 attribute with value \x27" ++ s ++ "\x27")

/-- The element loop of SetMetadataProtoPaddingMap. -/
def paddingMapLoop (ext : Externals) : Nat → List AttrElem → Except String (List PaddingMap)
  | _, [] => .ok []
  | index, elem :: rest =>
    match elem with
    | .int _ => .error (badStringArrayElementMsg "padding_map" index)
    | .str s =>
      match ext.parsePaddingMap s with
      | none => .error (badArrayElementMsg "padding_map" index s "tpu::PaddingMap")
      | some padding =>
        match paddingMapLoop ext (index + 1) rest with
        | .error e => .error e
        | .ok ps => .ok (padding :: ps)

/-- SetMetadataProtoPaddingMap: reads the padding_map array attribute and
deserializes every element. -/
def SetMetadataProtoPaddingMap (ext : Externals) (op : Op) : Except String (List PaddingMap) :=
  match op.getArrAttr "padding_map" with
  | none => .error (missingAttributeMsg "padding_map")
  | some padding_map => paddingMapLoop ext 0 padding_map

/-- SetOpSharding: a sharding array element must be a string that
deserializes into an xla::OpSharding. -/
def SetOpSharding (ext : Externals) (attr : AttrElem) (name : String) (index : Nat) :
    Except String OpSharding :=
  match attr with
  | .int _ => .error (badStringArrayElementMsg name index)
  | .str s =>
    match ext.parseOpSharding s with
    | none => .error (badArrayElementMsg name index s "xla::OpSharding")
    | some sharding => .ok sharding

/-- The per-operand loop of SetMetadataProtoArgs, over the operand types
zipped with the input sharding elements (the length equality has been
checked).  Order of checks per operand: data-type conversion, kind,
shape, sharding parse. -/
def setMetadataProtoArgsLoop (ext : Externals) :
    Nat → List (MType × AttrElem) → Except String (List MetadataArg)
  | _, [] => .ok []
  | index, (operand_type, sharding_attr) :: rest =>
    match ConvertToDataType operand_type with
    | none =>
      .error ("failed to determine operand type at index " ++ toString index
        ++ ": unsupported type")
    | some dtype =>
      let kind := if dtype = DataType.DT_RESOURCE then ArgKind.VARIABLE else ArgKind.PARAMETER
      let shape :=
        match operand_type with
        | .tensor (some ds) _ => ConvertToTensorShapeProto ds
        | .tensor none _ => ShapeProto.unknownRank
      match SetOpSharding ext sharding_attr "input_sharding" index with
      | .error e => .error e
      | .ok sharding =>
        match setMetadataProtoArgsLoop ext (index + 1) rest with
        | .error e => .error e
        | .ok args => .ok ({ dtype, kind, shape, sharding } :: args)

/-- SetMetadataProtoArgs: reads the input_sharding array attribute, checks
its length against the operand count, then builds one Arg per operand. -/
def SetMetadataProtoArgs (ext : Externals) (op : Op) : Except String (List MetadataArg) :=
  match op.getArrAttr "input_sharding" with
  | none => .error (missingAttributeMsg "input_sharding")
  | some input_shardings =>
    if input_shardings.length ≠ op.numOperands then
      .error (badArrayAttrLengthMsg "input_sharding" op.numOperands input_shardings.length)
    else
      setMetadataProtoArgsLoop ext 0 (op.operandTypes.zip input_shardings)

/-- The per-result loop of SetMetadataProtoRetvals. -/
def setMetadataProtoRetvalsLoop (ext : Externals) :
    Nat → List AttrElem → Except String (List MetadataRetval)
  | _, [] => .ok []
  | index, elem :: rest =>
    match SetOpSharding ext elem "output_sharding" index with
    | .error e => .error e
    | .ok sharding =>
      match setMetadataProtoRetvalsLoop ext (index + 1) rest with
      | .error e => .error e
      | .ok rs => .ok ({ sharding } :: rs)

/-- SetMetadataProtoRetvals: reads the output_sharding array attribute,
checks its length against the result count, then parses every element. -/
def SetMetadataProtoRetvals (ext : Externals) (op : Op) : Except String (List MetadataRetval) :=
  match op.getArrAttr "output_sharding" with
  | none => .error (missingAttributeMsg "output_sharding")
  | some output_shardings =>
    if output_shardings.length ≠ op.numResults then
      .error (badArrayAttrLengthMsg "output_sharding" op.numResults output_shardings.length)
    else
      setMetadataProtoRetvalsLoop ext 0 output_shardings

/-- SetMetadataProtoFromLaunchFuncOp: populates the whole compile
metadata from the launch_func attributes, failing on the first bad or
missing attribute (step marker, padding map, args, retvals, in source
order); the device assignment, when supplied, is copied verbatim. -/
def SetMetadataProtoFromLaunchFuncOp (ext : Externals) (op : Op)
    (num_replicas num_cores_per_replica : Int)
    (xla_device_assignment : Option DeviceAssignmentProto) :
    Except String TPUCompileMetadataProto :=
  match SetMetadataProtoStepMarkerLocation op with
  | .error e => .error e
  | .ok step_marker_location =>
    match SetMetadataProtoPaddingMap ext op with
    | .error e => .error e
    | .ok padding_maps =>
      match SetMetadataProtoArgs ext op with
      | .error e => .error e
      | .ok args =>
        match SetMetadataProtoRetvals ext op with
        | .error e => .error e
        | .ok retvals =>
          .ok { num_replicas, num_cores_per_replica,
                step_marker_location, padding_maps,
                device_assignment := xla_device_assignment,
                args, retvals }

/-! ## Node builders -/

/-- WrapOpInLaunch: wraps a single operation in a tf_device.launch with an
explicit device string; the launch has the operation's result types and a
single region holding the operation followed by a tf_device.return
forwarding its results.  Returns the wrapper and the next fresh id (the
wrapper consumes two ids: the launch and its return). -/
def WrapOpInLaunch (nid : Nat) (op : Op) (device : String) : Op × Nat :=
  let ret := Op.mk (nid + 1) "tf_device.return" op.results [] [] .nil
  (Op.mk nid "tf_device.launch" [] op.resultTypes [("device", .str device)]
    (.cons (.cons op (.cons ret .nil)) .nil), nid + 2)

/-- The result of a successful BuildCompileOp: the tf.Shape probes created
in front of the compile op, the launch-wrapped compile op (the source
function returns the wrapper), and the next fresh id. -/
structure CompileBuildOk where
  shapeOps : List Op
  compileLaunch : Op
  nid : Nat
deriving DecidableEq, Repr

/-- Scalar tensor of the TF string type: the type of both compile op
results. -/
def strScalar : MType := MType.tensor (some []) .strT

/-- The result type of a tf.Shape probe: tensor of shape [-1] with i64
elements. -/
def shapeProbeType : MType := MType.tensor (some [-1]) .i64

/-- The static-shape test of BuildCompileOp for operand index i:
PartialTensorShape(metadata.args(i).shape()).IsFullyDefined(). -/
def compileIsStatic (metadata : TPUCompileMetadataProto) (i : Nat) : Bool :=
  ((metadata.args.get? i).map (fun a => a.shape.isFullyDefined)).getD true

/-- The tf.Shape probes of BuildCompileOp: one per operand whose
metadata-recorded shape is not fully defined, in operand order, with ids
allocated from nid. -/
def buildShapeOps (nid : Nat) (metadata : TPUCompileMetadataProto) (launch_func : Op) :
    List Op :=
  (launch_func.operands.enum.filter (fun p => !(compileIsStatic metadata p.1))).enum.map
    (fun q => Op.mk (nid + q.1) "tf.Shape" [q.2.2] [shapeProbeType] [] .nil)

/-- BuildCompileOp: builds the metadata from the launch_func attributes,
serializes it (debug or compact per the flag), creates one tf.Shape probe
per operand whose metadata shape is not fully defined (in operand order),
records the probe count in NumDynamicShapes, serializes the referenced
function closure into mlir_module, gives the compile op exactly two
string results (status and program key), and wraps it in a launch on the
compilation device.  Errors carry the operations already created, since
the source creates the probes before the remaining failure points. -/
def BuildCompileOp (ext : Externals) (tpu_compile_metadata_debug : Bool) (fuel : Nat)
    (mod : ModuleM) (launch_func : Op) (num_replicas num_cores_per_replica : Int)
    (compilation_device : String) (xla_device_assignment : Option DeviceAssignmentProto)
    (nid : Nat) : Except (String × List Op) CompileBuildOk :=
  match SetMetadataProtoFromLaunchFuncOp ext launch_func num_replicas
      num_cores_per_replica xla_device_assignment with
  | .error e => .error (e, [])
  | .ok metadata =>
    let txt_metadata :=
      if tpu_compile_metadata_debug then ext.metadataDebugString metadata
      else ext.serializeMetadata metadata
    -- Skip adding a shape op for operands whose (metadata-recorded) shape
    -- is fully defined.
    let shapeOps := buildShapeOps nid metadata launch_func
    let compile_op_operands := shapeOps.map (fun s => s.resultVal 0)
    match launch_func.getSymAttr "func" with
    | none => .error ("does not have `func` attribute", shapeOps)
    | some func_name =>
      match mod.lookupFunc func_name with
      | none =>
        -- The source assumes the symbol resolves (it dereferences the
        -- result unchecked); modelled as a failure.
        .error ("invalid symbol reference in \x27func\x27 attribute", shapeOps)
      | some func =>
        match EncapsulateFuncAndSerialize ext fuel mod func with
        | .error e => .error (e, shapeOps)
        | .ok (_, txt_module) =>
          let n := shapeOps.length
          let compile_op := Op.mk (nid + n) "tf._TPUCompileMlir" compile_op_operands
            [strScalar, strScalar]
            [("metadata", .str txt_metadata),
             ("NumDynamicShapes", .int (Int.ofNat n)),
             ("mlir_module", .str txt_module)] .nil
          let (launch, nid2) := WrapOpInLaunch (nid + n + 1) compile_op compilation_device
          .ok { shapeOps, compileLaunch := launch, nid := nid2 }

/-- BuildExecuteOp: a tf.TPUExecute with the supplied inputs and the same
result types as the launch_func. -/
def BuildExecuteOp (nid : Nat) (inputs : List Value) (launch_func : Op) : Op :=
  Op.mk nid "tf.TPUExecute" inputs launch_func.resultTypes [] .nil

/-- BuildParallelExecuteOp: a tf_device.parallel_execute with one region
per logical core whose result list concatenates, core-major, the
launch_func result types; region i holds a launch-wrapped (empty device)
execute op whose final operand is result 1 + i of the compile op, and a
region terminator forwarding the wrapper's results. -/
def BuildParallelExecuteOp (ext : Externals) (nid : Nat) (num_logical_cores : Nat)
    (compile_op launch_func : Op) : Op × Nat :=
  let concatenated_output_types :=
    (List.replicate num_logical_cores launch_func.resultTypes).flatten
  let input_list := ext.extractInputsForLogicalDevices num_logical_cores launch_func
  let mkRegion : Nat → Ops := fun core_id =>
    let base := nid + 1 + 4 * core_id
    let execute_inputs :=
      ((input_list.get? core_id).getD []) ++ [compile_op.resultVal (1 + core_id)]
    let execute := BuildExecuteOp base execute_inputs launch_func
    let (region_launch_op, _) := WrapOpInLaunch (base + 1) execute ""
    let ret := Op.mk (base + 3) "tf_device.return" region_launch_op.results [] [] .nil
    Ops.cons region_launch_op (Ops.cons ret Ops.nil)
  (Op.mk nid "tf_device.parallel_execute" [] concatenated_output_types []
     (Regions.ofList ((List.range num_logical_cores).map mkRegion)),
   nid + 1 + 4 * num_logical_cores)

/-- The substitution performed by replacing uses of result j of the
operation oldId (for j below k) with result j of the operation newId. -/
def replaceResultUsesSubst (oldId newId : Nat) (k : Nat) : Value → Value
  | .res i j ty => if i = oldId ∧ j < k then .res newId j ty else .res i j ty
  | v => v

/-- RemapOutputsOfParallelExecute: llvm::zip of the launch_func results
with the parallel_execute results pairs the first min(k, N * k) results
index-for-index; each launch_func result is replaced by the
parallel_execute result of the same index. -/
def RemapOutputsOfParallelExecute (launch_func op : Op) : Value → Value :=
  replaceResultUsesSubst launch_func.opId op.opId
    (min launch_func.numResults op.numResults)

/-- The substitution of the compilation-result placeholder redirect: the
output (result 0) of every placeholder in the block is replaced by result
0 of the compile op. -/
def compilationResultSubst (crIds : List Nat) (compileId : Nat) : Value → Value
  | .res i 0 ty => if i ∈ crIds then .res compileId 0 ty else .res i 0 ty
  | v => v

/-- AssignDevicesToReplicatedExecute: with a replicate parent, sets its
devices dictionary attribute (logical-core-0 alias mapped to the first
device of each replica row) and wraps the execute in a launch on that
alias; without one, wraps the execute in a launch on the single
execution device.  (row.front() on an empty row is undefined behaviour
in the source; modelled with a default.) -/
def AssignDevicesToReplicatedExecute (ext : Externals) (nid : Nat)
    (execution_devices : List (List String)) (replicate : Option Op)
    (execute_op : Op) : Op × Option Op × Nat :=
  match replicate with
  | some r =>
    let replicate_execution_devices := execution_devices.map (fun row => row.headD "")
    let device := ext.getDeviceAliasForLogicalCore 0
    let r2 := r.setAttr "devices" (.dict [(device, replicate_execution_devices)])
    let (launch, nid2) := WrapOpInLaunch nid execute_op device
    (launch, some r2, nid2)
  | none =>
    let device := (execution_devices.headD []).headD ""
    let (launch, nid2) := WrapOpInLaunch nid execute_op device
    (launch, none, nid2)

/-- BuildTPUCompileSucceededAssertOp: a tf.TPUCompileSucceededAssert
consuming the compile op's status result, wrapped in a launch on the
compilation device. -/
def BuildTPUCompileSucceededAssertOp (nid : Nat) (compile_op : Op)
    (compilation_device : String) : Op × Nat :=
  let assert_op := Op.mk nid "tf.TPUCompileSucceededAssert" [compile_op.resultVal 0] [] [] .nil
  WrapOpInLaunch (nid + 1) assert_op compilation_device

/-! ## The per-node rewrite -/

/-- dyn_cast_or_null of the parent operation to a replicate op. -/
def replicateParentOf (parent : Option Op) : Option Op :=
  match parent with
  | some p => if p.name = "tf_device.replicate" then some p else none
  | none => none

/-- The outcome of a successful Rewrite of one launch_func: the block it
lived in is pre ++ newOps ++ post afterwards (newOps standing at the
former position of the launch_func), the possibly updated parent
operation, and the next fresh id.  When the node is skipped (no
replication marker) newOps is the untouched node itself. -/
structure RewriteOk where
  newOps : List Op
  pre : List Op
  post : List Op
  parent : Option Op
  nid : Nat
deriving DecidableEq, Repr

/-- The block contents after a successful Rewrite. -/
def RewriteOk.block (r : RewriteOk) : List Op := r.pre ++ r.newOps ++ r.post

/-- num_replicas as read by Rewrite: the n attribute of a replicate
parent (ODS-verified present), 1 otherwise. -/
def numReplicasOf (parent : Option Op) : Int :=
  match replicateParentOf parent with
  | some r => (r.getIntAttr "n").getD 1
  | none => 1

/-- The ids of the tf.TPUCompilationResult placeholders among the direct
operations of the block (no replication-marker comparison). -/
def compilationResultIds (blockOps : List Op) : List Nat :=
  blockOps.filterMap
    (fun o => if o.name = "tf.TPUCompilationResult" then some o.opId else none)

/-- The state after the single-execute path of Rewrite (partition count
1): placeholder outputs redirected to the compile status (s1), assert and
execute built, devices assigned (updating a replicate parent), all
launch_func result uses replaced by the execute wrapper's results (s2),
and the launch_func erased. -/
def rewriteSingleResult (ext : Externals) (tda : TPUDeviceAssignment)
    (cb : CompileBuildOk) (parent : Option Op) (pre : List Op) (lf : Op)
    (post : List Op) : RewriteOk :=
  let compile_op := cb.compileLaunch
  let crIds := compilationResultIds (pre ++ lf :: post)
  let s1 := compilationResultSubst crIds compile_op.opId
  let pre1 := pre.map (Op.mapOperands s1)
  let post1 := post.map (Op.mapOperands s1)
  let lf1 := Op.mapOperands s1 lf
  let shape1 := cb.shapeOps.map (Op.mapOperands s1)
  let compile1 := Op.mapOperands s1 compile_op
  -- The assert wrapper consumes ids cb.nid .. cb.nid + 2, the execute op
  -- id cb.nid + 3, its wrapper ids cb.nid + 4 and cb.nid + 5.
  let assert_launch := (BuildTPUCompileSucceededAssertOp cb.nid compile1
    tda.compilation_device).1
  let execute_inputs := lf1.operands ++ [compile1.resultVal 1]
  let execute_op := BuildExecuteOp (cb.nid + 3) execute_inputs lf1
  let adr := AssignDevicesToReplicatedExecute ext (cb.nid + 4) tda.execution_devices
    (replicateParentOf parent) execute_op
  let launch_op := adr.1
  -- launch_func.replaceAllUsesWith(launch_op): launch_op has id cb.nid + 4.
  let s2 := replaceResultUsesSubst lf.opId (cb.nid + 4) lf.numResults
  let parent2 := match adr.2.1 with | some r2 => some r2 | none => parent
  { newOps := (shape1 ++ [compile1, assert_launch, launch_op]).map (Op.mapOperands s2),
    pre := pre1.map (Op.mapOperands s2),
    post := post1.map (Op.mapOperands s2),
    parent := parent2, nid := cb.nid + 6 }

/-- The state after the parallel-execute path of Rewrite (partition count
above 1): placeholder outputs redirected (s1), assert built, the
parallel_execute built, and the launch_func results zip-remapped to the
parallel_execute results (s2); the parent is untouched. -/
def rewriteParallelResult (ext : Externals) (tda : TPUDeviceAssignment)
    (cb : CompileBuildOk) (parent : Option Op) (pre : List Op) (lf : Op)
    (post : List Op) (num_cores_per_replica : Int) : RewriteOk :=
  let compile_op := cb.compileLaunch
  let crIds := compilationResultIds (pre ++ lf :: post)
  let s1 := compilationResultSubst crIds compile_op.opId
  let pre1 := pre.map (Op.mapOperands s1)
  let post1 := post.map (Op.mapOperands s1)
  let lf1 := Op.mapOperands s1 lf
  let shape1 := cb.shapeOps.map (Op.mapOperands s1)
  let compile1 := Op.mapOperands s1 compile_op
  -- The assert wrapper consumes ids cb.nid .. cb.nid + 2.
  let assert_launch := (BuildTPUCompileSucceededAssertOp cb.nid compile1
    tda.compilation_device).1
  let pe := BuildParallelExecuteOp ext (cb.nid + 3) num_cores_per_replica.toNat
    compile1 lf1
  let s2 := RemapOutputsOfParallelExecute lf1 pe.1
  { newOps := (shape1 ++ [compile1, assert_launch, pe.1]).map (Op.mapOperands s2),
    pre := pre1.map (Op.mapOperands s2),
    post := post1.map (Op.mapOperands s2),
    parent := parent, nid := pe.2 }

/-- Rewrite: the per-node algorithm.  pre and post are the contents of the
launch_func's block around it, parent its parent operation (if any).
Mirrors the source control flow: skip without the _tpu_replicate marker;
read the replica count from a replicate parent (else 1); require the
num_cores_per_replica attribute; resolve devices; build the compile op
(probes inserted before it); redirect every sibling
tf.TPUCompilationResult placeholder output to the compile status result
(no marker comparison); build the assert; then either the
parallel-execute path (num_cores_per_replica greater than 1) with its
output remapping, or the single-execute path with replicated device
assignment and full use replacement; finally erase the launch_func.
Errors carry the operations already inserted at the node's position
(mutation is not rolled back). -/
def Rewrite (ext : Externals) (tpu_compile_metadata_debug : Bool) (fuel : Nat)
    (mod : ModuleM) (devices : List String) (nid : Nat) (parent : Option Op)
    (pre : List Op) (launch_func : Op) (post : List Op) :
    Except (String × List Op) RewriteOk :=
  match launch_func.getStrAttr "_tpu_replicate" with
  | none => .ok { newOps := [launch_func], pre, post, parent, nid }
  | some _ =>
    -- replicate.n() is an ODS-verified attribute of the replicate op.
    let num_replicas : Int := numReplicasOf parent
    match launch_func.getIntAttr "num_cores_per_replica" with
    | none => .error (missingAttributeMsg "num_cores_per_replica", [])
    | some num_cores_per_replica =>
      match ext.getTPUCompilationAndExecutionDevices devices num_replicas
          num_cores_per_replica with
      | .error e =>
        .error ("error in fetching TPU compilation/execution devices: " ++ e, [])
      | .ok tpu_device_assignment =>
        match BuildCompileOp ext tpu_compile_metadata_debug fuel mod launch_func
            num_replicas num_cores_per_replica
            tpu_device_assignment.compilation_device
            tpu_device_assignment.xla_device_assignment nid with
        | .error e => .error e
        | .ok cb =>
          -- Placeholder redirect (no _tpu_replicate comparison despite the
          -- source comment), assert, then the execution branch.
          if 1 < num_cores_per_replica then
            .ok (rewriteParallelResult ext tpu_device_assignment cb parent pre
              launch_func post num_cores_per_replica)
          else
            .ok (rewriteSingleResult ext tpu_device_assignment cb parent pre
              launch_func post)

/-! ## The pass driver -/

/-- Replace the region list of an operation. -/
def Op.setRegions (o : Op) (rs : Regions) : Op :=
  match o with
  | .mk i n ops tys a _ => .mk i n ops tys a rs

/-- The sweep of runOnModule: erase every tf.TPUCompilationResult
operation, at any nesting depth. -/
def eraseCompilationResultOps (l : List Op) : List Op :=
  (Ops.eraseAllName "tf.TPUCompilationResult" (Ops.ofList l)).toList

mutual
/-- The rewrite walk over one block: visits operations in order, applies
Rewrite to every tf_device.launch_func (resuming after the operations it
inserted), and recurses into the regions of other operations (with the
walked operation as parent, so rewrites inside a replicate can update its
attributes).  Interrupts on the first failure.  Fuel models the walk's
recursion; all calls strictly decrease it. -/
def walkBlockOps (ext : Externals) (tpu_compile_metadata_debug : Bool)
    (mod : ModuleM) (devices : List String) :
    Nat → Nat → Option Op → List Op → List Op →
    Except String (List Op × Option Op × Nat)
  | 0, _, _, _, _ => .error "walk fuel exhausted"
  | _ + 1, nid, parent, done, [] => .ok (done, parent, nid)
  | fuel + 1, nid, parent, done, o :: rest =>
    if o.name = "tf_device.launch_func" then
      match Rewrite ext tpu_compile_metadata_debug fuel mod devices nid parent
          done o rest with
      | .error (e, _) => .error e
      | .ok r =>
        walkBlockOps ext tpu_compile_metadata_debug mod devices fuel r.nid
          r.parent (r.pre ++ r.newOps) r.post
    else
      match walkOpRegions ext tpu_compile_metadata_debug mod devices fuel nid
          o [] o.regions.toList with
      | .error e => .error e
      | .ok (o2, nid2) =>
        walkBlockOps ext tpu_compile_metadata_debug mod devices fuel nid2 parent
          (done ++ [o2]) rest

/-- Walks the pending regions of cur one by one (walked regions
accumulated in doneRs), threading attribute updates of cur made by inner
rewrites. -/
def walkOpRegions (ext : Externals) (tpu_compile_metadata_debug : Bool)
    (mod : ModuleM) (devices : List String) :
    Nat → Nat → Op → List Ops → List Ops → Except String (Op × Nat)
  | 0, _, _, _, _ => .error "walk fuel exhausted"
  | _ + 1, nid, cur, doneRs, [] => .ok (cur.setRegions (Regions.ofList doneRs), nid)
  | fuel + 1, nid, cur, doneRs, r :: rs =>
    match walkBlockOps ext tpu_compile_metadata_debug mod devices fuel nid
        (some cur) [] r.toList with
    | .error e => .error e
    | .ok (ops2, parent2, nid2) =>
      let cur2 := (parent2.getD cur).setRegions cur.regions
      walkOpRegions ext tpu_compile_metadata_debug mod devices fuel nid2 cur2
        (doneRs ++ [Ops.ofList ops2]) rs
end

/-- TPURewritePass::runOnModule: reads the device inventory, walks the
module body rewriting every launch_func (failure aborts the pass), then
sweeps away the remaining compilation-result placeholders. -/
def runOnModule (ext : Externals) (tpu_compile_metadata_debug : Bool)
    (mod : ModuleM) (fuel nid : Nat) (body : List Op) : Option (List Op) :=
  match ext.getDevicesFromOp mod with
  | .error _ => none
  | .ok devices =>
    match walkBlockOps ext tpu_compile_metadata_debug mod devices fuel nid
        none [] body with
    | .error _ => none
    | .ok (body2, _, _) => some (eraseCompilationResultOps body2)

/-! ## Observation helpers used by the theorem statements -/

/-- The first operation inside the first region of an operation (for a
launch wrapper: the wrapped operation). -/
def Op.firstInnerOp (o : Op) : Option Op :=
  match o.regions with
  | .cons (.cons inner _) _ => some inner
  | _ => none

/-- Occurrence count of a name over a list of operations, at any depth. -/
def opsCountName (s : String) (l : List Op) : Nat :=
  (l.map (Op.countName s)).sum

/-- Use count of a value over a list of operations, at any depth. -/
def opsUsesCount (v : Value) (l : List Op) : Nat :=
  (l.map (Op.usesCount v)).sum

/-- Does an operation with the given id occur in the list, at any
depth? -/
def opsContainsId (i : Nat) (l : List Op) : Bool :=
  l.any (Op.containsId i)

mutual
/-- All operation ids and all operand result-references of an operation
are below the bound (freshness of ids at or above the bound). -/
def Op.boundedBy (n : Nat) : Op → Bool
  | .mk i _ ops _ _ rs =>
    decide (i < n) &&
      ops.all (fun v => match v with | .res j _ _ => decide (j < n) | .arg _ _ => true) &&
      Regions.boundedBy n rs

def Regions.boundedBy (n : Nat) : Regions → Bool
  | .nil => true
  | .cons r rs => Ops.boundedBy n r && Regions.boundedBy n rs

def Ops.boundedBy (n : Nat) : Ops → Bool
  | .nil => true
  | .cons o os => Op.boundedBy n o && Ops.boundedBy n os
end

mutual
/-- The id-only lower-bound check: every operation id in the tree is at
or above n. -/
def Op.idsGe (n : Nat) : Op → Bool
  | .mk i _ _ _ _ rs => decide (n ≤ i) && Regions.idsGe n rs

def Regions.idsGe (n : Nat) : Regions → Bool
  | .nil => true
  | .cons r rs => Ops.idsGe n r && Regions.idsGe n rs

def Ops.idsGe (n : Nat) : Ops → Bool
  | .nil => true
  | .cons o os => Op.idsGe n o && Ops.idsGe n os
end

/-! ## Reachability in the source module (for the closure extractor) -/

/-- The symbol uses of a function that resolve, through the source symbol
table, to functions (in use order). -/
def resolvedRefs (src : ModuleM) (f : FuncM) : List FuncM :=
  f.refs.filterMap src.lookupFunc

/-- The functions reachable from the entry function through resolved
symbolic references. -/
inductive ReachableFrom (src : ModuleM) (entry : FuncM) : FuncM → Prop where
  | base : ReachableFrom src entry entry
  | step {f g : FuncM} : ReachableFrom src entry f → g ∈ resolvedRefs src f →
      ReachableFrom src entry g

/-- The name carried by the clone of a function: the entry function is
renamed to main, every other function keeps its name. -/
def cloneNameOf (entryName : String) (f : FuncM) : String :=
  if f.name = entryName then "main" else f.name

/-- The clone of the entry function as it is inserted in the destination
module. -/
def mainClone (entry : FuncM) : FuncM := { entry with name := "main" }

/-- How a reachable function is expected to occur in the destination
module: the entry through its renamed clone, any other function
verbatim. -/
def inDest (entry : FuncM) (dest : ModuleM) (g : FuncM) : Prop :=
  if g = entry then mainClone entry ∈ dest.funcs else g ∈ dest.funcs

/-! ## Concrete instances used by witnesses and counterexamples -/

/-- A concrete external-collaborator record with everywhere-succeeding
parsers, a fixed one-replica one-core device resolution, and the standard
logical-core alias. -/
def ext0 : Externals where
  parseOpSharding := fun s => some ⟨s⟩
  parsePaddingMap := fun s => some ⟨s⟩
  serializeMetadata := fun _ => "serialized-metadata"
  metadataDebugString := fun _ => "debug-metadata"
  printModule := fun _ => "printed-module"
  extractInputsForLogicalDevices := fun n _ => List.replicate n []
  getTPUCompilationAndExecutionDevices := fun _ _ _ =>
    .ok { compilation_device := "/CPU:0", execution_devices := [["/TPU:0"]],
          xla_device_assignment := none }
  getDeviceAliasForLogicalCore := fun n => "TPU_REPLICATED_CORE_" ++ toString n
  getDevicesFromOp := fun _ => .ok []

/-- A concrete external-collaborator record whose resolver reports two
replica rows of two devices each. -/
def ext2 : Externals :=
  { ext0 with
    getTPUCompilationAndExecutionDevices := fun _ _ _ =>
      .ok { compilation_device := "/CPU:0",
            execution_devices := [["/TPU:0", "/TPU:1"], ["/TPU:2", "/TPU:3"]],
            xla_device_assignment := none } }

/-- A concrete source module: one referenced function fn and the required
version-compatibility attribute. -/
def mod0 : ModuleM where
  attrs := [("tf.versions", .str "producer-version")]
  funcs := [{ name := "fn", refs := [], payload := 0 }]

/-- A statically shaped tensor type. -/
def tyStatic : MType := .tensor (some [2]) .f32

/-- A dynamically shaped tensor type. -/
def tyDyn : MType := .tensor (some [-1]) .f32

/-- Attributes of a well-formed concrete launch_func with one operand and
one result. -/
def lfAttrs1 (ncpr : Int) : List (String × AttrValue) :=
  [("_tpu_replicate", .str "cluster"),
   ("num_cores_per_replica", .int ncpr),
   ("step_marker_location", .str ""),
   ("padding_map", .arr []),
   ("input_sharding", .arr [.str "s0"]),
   ("output_sharding", .arr [.str "r0"]),
   ("func", .sym "fn")]

/-- A concrete launch_func: one static-shaped operand, one result. -/
def lf1 (ncpr : Int) : Op :=
  Op.mk 0 "tf_device.launch_func" [Value.arg 0 tyStatic] [tyStatic] (lfAttrs1 ncpr) .nil

/-- The entry function of a two-function reference cycle. -/
def funcA : FuncM := { name := "A", refs := ["B"], payload := 0 }

/-- The second function of the cycle, referencing the entry back. -/
def funcB : FuncM := { name := "B", refs := ["A"], payload := 1 }

/-- A concrete source module whose call graph is the cycle A <-> B. -/
def modAB : ModuleM where
  attrs := [("tf.versions", .str "producer-version")]
  funcs := [funcA, funcB]

/-- A concrete downstream consumer of lf1's single result. -/
def useOp : Op :=
  Op.mk 2 "tf.Identity" [Value.res 0 0 tyStatic] [tyStatic] [] Regions.nil

/-- The device assignment ext0's resolver reports. -/
def tdaD : TPUDeviceAssignment :=
  { compilation_device := "/CPU:0", execution_devices := [["/TPU:0"]],
    xla_device_assignment := none }

/-- A concrete compilation-result placeholder whose replication-marker
value differs from lf1's cluster string. -/
def phD : Op :=
  Op.mk 3 "tf.TPUCompilationResult" [] [strScalar]
    [("_tpu_replicate", AttrValue.str "other")] Regions.nil

/-- A concrete downstream consumer of phD's output. -/
def useCR : Op :=
  Op.mk 4 "tf.Identity" [Value.res 3 0 strScalar] [strScalar] [] Regions.nil

/-- A concrete replicate parent with two replicas. -/
def repC7 : Op :=
  Op.mk 1 "tf_device.replicate" [] [] [("n", .int 2)] .nil

/-- A concrete launch_func without the replication marker. -/
def lfNoMarker : Op :=
  Op.mk 0 "tf_device.launch_func" [Value.arg 0 tyStatic] [tyStatic]
    [("func", .sym "fn")] .nil

/-- A concrete launch_func with a statically shaped float operand and an
unranked resource operand. -/
def lfC6 : Op :=
  Op.mk 0 "tf_device.launch_func"
    [Value.arg 0 tyStatic, Value.arg 1 (MType.tensor none .resource)] [tyStatic]
    [("_tpu_replicate", .str "cluster"),
     ("num_cores_per_replica", .int 1),
     ("step_marker_location", .str ""),
     ("padding_map", .arr []),
     ("input_sharding", .arr [.str "s0", .str "s1"]),
     ("output_sharding", .arr [.str "r0"]),
     ("func", .sym "fn")] .nil

/-- A concrete launch_func whose only operand has an unconvertible
element type. -/
def lfC6err : Op :=
  Op.mk 0 "tf_device.launch_func"
    [Value.arg 0 (MType.tensor none (.unsupported 0))] [tyStatic]
    [("_tpu_replicate", .str "cluster"),
     ("num_cores_per_replica", .int 1),
     ("step_marker_location", .str ""),
     ("padding_map", .arr []),
     ("input_sharding", .arr [.str "s0"]),
     ("output_sharding", .arr [.str "r0"]),
     ("func", .sym "fn")] .nil

/-- A concrete launch_func with one statically and one dynamically shaped
operand. -/
def lfC3 : Op :=
  Op.mk 0 "tf_device.launch_func" [Value.arg 0 tyStatic, Value.arg 1 tyDyn] [tyStatic]
    [("_tpu_replicate", .str "cluster"),
     ("num_cores_per_replica", .int 1),
     ("step_marker_location", .str ""),
     ("padding_map", .arr []),
     ("input_sharding", .arr [.str "s0", .str "s1"]),
     ("output_sharding", .arr [.str "r0"]),
     ("func", .sym "fn")] .nil

/-- The compile metadata built from lfC6. -/
def mC6 : TPUCompileMetadataProto where
  num_replicas := 1
  num_cores_per_replica := 1
  step_marker_location := .STEP_MARK_AT_ENTRY
  padding_maps := []
  device_assignment := none
  args := [{ dtype := .DT_FLOAT, kind := .PARAMETER, shape := .dims [2],
             sharding := { raw := "s0" } },
           { dtype := .DT_RESOURCE, kind := .VARIABLE, shape := .unknownRank,
             sharding := { raw := "s1" } }]
  retvals := [{ sharding := { raw := "r0" } }]

/-- A concrete launch_func with three operands but an input-sharding
array of length two. -/
def lfMismatch : Op :=
  Op.mk 0 "tf_device.launch_func"
    [Value.arg 0 tyStatic, Value.arg 1 tyStatic, Value.arg 2 tyStatic] [tyStatic]
    [("_tpu_replicate", .str "cluster"),
     ("num_cores_per_replica", .int 1),
     ("step_marker_location", .str ""),
     ("padding_map", .arr []),
     ("input_sharding", .arr [.str "s0", .str "s1"]),
     ("output_sharding", .arr [.str "r0"]),
     ("func", .sym "fn")] .nil

/-! # Theorems -/

/-! ## Inversion lemmas for the metadata builders -/

/-- The args loop yields one descriptor per input pair. -/
theorem setMetadataProtoArgsLoop_ok_length (ext : Externals) :
    ∀ (pairs : List (MType × AttrElem)) (n : Nat) (args : List MetadataArg),
      setMetadataProtoArgsLoop ext n pairs = .ok args → args.length = pairs.length := by
  intro pairs
  induction pairs with
  | nil =>
    intro n args h
    simp only [setMetadataProtoArgsLoop] at h
    cases h
    rfl
  | cons p rest ih =>
    intro n args h
    obtain ⟨ty, sh⟩ := p
    simp only [setMetadataProtoArgsLoop] at h
    cases hc : ConvertToDataType ty with
    | none => rw [hc] at h; cases h
    | some d =>
      rw [hc] at h
      cases hs : SetOpSharding ext sh "input_sharding" n with
      | error e => rw [hs] at h; cases h
      | ok shd =>
        rw [hs] at h
        cases hr : setMetadataProtoArgsLoop ext (n + 1) rest with
        | error e => rw [hr] at h; cases h
        | ok args2 =>
          rw [hr] at h
          cases h
          simp [ih (n + 1) args2 hr]

/-- Elementwise characterization of a successful args loop: the k-th
descriptor records the converted data type, the variable kind exactly for
the resource data type, and the shape of the k-th operand type (dimension
list when ranked, unknown rank otherwise). -/
theorem setMetadataProtoArgsLoop_ok_get (ext : Externals) :
    ∀ (pairs : List (MType × AttrElem)) (n : Nat) (args : List MetadataArg),
      setMetadataProtoArgsLoop ext n pairs = .ok args →
      ∀ (k : Nat) (ty : MType) (sh : AttrElem), pairs.get? k = some (ty, sh) →
        ∃ a, args.get? k = some a ∧
          ConvertToDataType ty = some a.dtype ∧
          (a.kind = ArgKind.VARIABLE ↔ a.dtype = DataType.DT_RESOURCE) ∧
          a.shape = (match ty with
            | .tensor (some ds) _ => ShapeProto.dims ds
            | .tensor none _ => ShapeProto.unknownRank) := by
  intro pairs
  induction pairs with
  | nil => intro n args _ k ty sh hk; simp at hk
  | cons p rest ih =>
    intro n args h k ty sh hk
    obtain ⟨ty0, sh0⟩ := p
    simp only [setMetadataProtoArgsLoop] at h
    cases hc : ConvertToDataType ty0 with
    | none => rw [hc] at h; cases h
    | some d =>
      rw [hc] at h
      cases hs : SetOpSharding ext sh0 "input_sharding" n with
      | error e => rw [hs] at h; cases h
      | ok shd =>
        rw [hs] at h
        cases hr : setMetadataProtoArgsLoop ext (n + 1) rest with
        | error e => rw [hr] at h; cases h
        | ok args2 =>
          rw [hr] at h
          cases h
          cases k with
          | zero =>
            cases hk
            refine ⟨_, rfl, hc, ?_, ?_⟩
            · by_cases hd : d = DataType.DT_RESOURCE <;> simp [hd]
            · cases ty with
              | tensor sh3 e => cases sh3 <;> simp [ConvertToTensorShapeProto]
          | succ k2 =>
            simp only [List.get?] at hk ⊢
            exact ih (n + 1) args2 hr k2 ty sh hk

/-- The retvals loop yields one descriptor per output sharding element. -/
theorem setMetadataProtoRetvalsLoop_ok_length (ext : Externals) :
    ∀ (elems : List AttrElem) (n : Nat) (rs : List MetadataRetval),
      setMetadataProtoRetvalsLoop ext n elems = .ok rs → rs.length = elems.length := by
  intro elems
  induction elems with
  | nil =>
    intro n rs h
    simp only [setMetadataProtoRetvalsLoop] at h
    cases h
    rfl
  | cons e rest ih =>
    intro n rs h
    simp only [setMetadataProtoRetvalsLoop] at h
    cases hs : SetOpSharding ext e "output_sharding" n with
    | error e2 => rw [hs] at h; cases h
    | ok shd =>
      rw [hs] at h
      cases hr : setMetadataProtoRetvalsLoop ext (n + 1) rest with
      | error e2 => rw [hr] at h; cases h
      | ok rs2 =>
        rw [hr] at h
        cases h
        simp [ih (n + 1) rs2 hr]

/-- Inversion of a successful SetMetadataProtoArgs. -/
theorem SetMetadataProtoArgs_ok_inv (ext : Externals) (lf : Op) (args : List MetadataArg)
    (h : SetMetadataProtoArgs ext lf = .ok args) :
    ∃ shardings, lf.getArrAttr "input_sharding" = some shardings ∧
      shardings.length = lf.numOperands ∧
      setMetadataProtoArgsLoop ext 0 (lf.operandTypes.zip shardings) = .ok args := by
  unfold SetMetadataProtoArgs at h
  cases ha : lf.getArrAttr "input_sharding" with
  | none => rw [ha] at h; cases h
  | some shardings =>
    rw [ha] at h
    by_cases hl : shardings.length = lf.numOperands
    · simp only [hl, ne_eq, not_true_eq_false, if_false] at h
      exact ⟨shardings, rfl, hl, by simpa using h⟩
    · simp only [ne_eq, hl, not_false_eq_true, if_true] at h
      cases h

/-- Inversion of a successful SetMetadataProtoRetvals. -/
theorem SetMetadataProtoRetvals_ok_inv (ext : Externals) (lf : Op)
    (rs : List MetadataRetval) (h : SetMetadataProtoRetvals ext lf = .ok rs) :
    ∃ shardings, lf.getArrAttr "output_sharding" = some shardings ∧
      shardings.length = lf.numResults ∧
      setMetadataProtoRetvalsLoop ext 0 shardings = .ok rs := by
  unfold SetMetadataProtoRetvals at h
  cases ha : lf.getArrAttr "output_sharding" with
  | none => rw [ha] at h; cases h
  | some shardings =>
    rw [ha] at h
    by_cases hl : shardings.length = lf.numResults
    · simp only [hl, ne_eq, not_true_eq_false, if_false] at h
      exact ⟨shardings, rfl, hl, by simpa using h⟩
    · simp only [ne_eq, hl, not_false_eq_true, if_true] at h
      cases h

/-- Inversion of a successful SetMetadataProtoFromLaunchFuncOp. -/
theorem SetMetadataProtoFromLaunchFuncOp_ok_inv (ext : Externals) (lf : Op)
    (nr ncpr : Int) (xla : Option DeviceAssignmentProto) (m : TPUCompileMetadataProto)
    (h : SetMetadataProtoFromLaunchFuncOp ext lf nr ncpr xla = .ok m) :
    SetMetadataProtoStepMarkerLocation lf = .ok m.step_marker_location ∧
    SetMetadataProtoPaddingMap ext lf = .ok m.padding_maps ∧
    SetMetadataProtoArgs ext lf = .ok m.args ∧
    SetMetadataProtoRetvals ext lf = .ok m.retvals ∧
    m.num_replicas = nr ∧ m.num_cores_per_replica = ncpr ∧
    m.device_assignment = xla := by
  unfold SetMetadataProtoFromLaunchFuncOp at h
  cases h1 : SetMetadataProtoStepMarkerLocation lf with
  | error e => rw [h1] at h; cases h
  | ok sm =>
    rw [h1] at h
    cases h2 : SetMetadataProtoPaddingMap ext lf with
    | error e => rw [h2] at h; cases h
    | ok pm =>
      rw [h2] at h
      cases h3 : SetMetadataProtoArgs ext lf with
      | error e => rw [h3] at h; cases h
      | ok args =>
        rw [h3] at h
        cases h4 : SetMetadataProtoRetvals ext lf with
        | error e => rw [h4] at h; cases h
        | ok rvs =>
          rw [h4] at h
          cases h
          exact ⟨rfl, rfl, rfl, rfl, rfl, rfl, rfl⟩

/-- The args loop reports the first unconvertible operand type by its
index: if every pair before position i converts and parses, and the pair
at position i has an unconvertible type, the loop fails with the
type-determination error naming index n + i. -/
theorem setMetadataProtoArgsLoop_unconvertible (ext : Externals) :
    ∀ (pairs : List (MType × AttrElem)) (n i : Nat) (ty : MType) (sh : AttrElem),
      pairs.get? i = some (ty, sh) →
      ConvertToDataType ty = none →
      (∀ j tyj shj, j < i → pairs.get? j = some (tyj, shj) →
        (ConvertToDataType tyj).isSome = true ∧
        (SetOpSharding ext shj "input_sharding" (n + j)).isOk = true) →
      setMetadataProtoArgsLoop ext n pairs = .error
        ("failed to determine operand type at index " ++ toString (n + i)
          ++ ": unsupported type") := by
  intro pairs
  induction pairs with
  | nil => intro n i ty sh hk; simp at hk
  | cons p rest ih =>
    intro n i ty sh hk hc hpre
    obtain ⟨ty0, sh0⟩ := p
    cases i with
    | zero =>
      cases hk
      simp only [setMetadataProtoArgsLoop, hc, Nat.add_zero]
    | succ i2 =>
      have h0 := hpre 0 ty0 sh0 (Nat.succ_pos i2) rfl
      obtain ⟨hc0, hs0⟩ := h0
      cases hd : ConvertToDataType ty0 with
      | none => rw [hd] at hc0; cases hc0
      | some d =>
        cases hs : SetOpSharding ext sh0 "input_sharding" (n + 0) with
        | error e => rw [hs] at hs0; cases hs0
        | ok shd =>
          have hrest := ih (n + 1) i2 ty sh (by simpa using hk) hc
            (fun j tyj shj hj hgj => by
              have := hpre (j + 1) tyj shj (Nat.succ_lt_succ hj) (by simpa using hgj)
              simpa [Nat.add_assoc, Nat.add_comm 1 j] using this)
          simp only [setMetadataProtoArgsLoop, hd]
          rw [show n + 0 = n from rfl] at hs
          rw [hs, hrest]
          simp [Nat.add_assoc, Nat.add_comm 1 i2]

/-- C8: for every launch node, a missing step-marker-policy string
attribute yields the missing-attribute error; an empty value yields the
default mark-at-entry policy; a non-empty value that does not parse
against the enumeration yields the malformed-attribute error naming the
attribute and the raw value; a parseable value is recorded. -/
theorem C8_step_marker_policy (op : Op) :
    (op.getStrAttr "step_marker_location" = none →
      SetMetadataProtoStepMarkerLocation op =
        .error (missingAttributeMsg "step_marker_location")) ∧
    (op.getStrAttr "step_marker_location" = some "" →
      SetMetadataProtoStepMarkerLocation op = .ok .STEP_MARK_AT_ENTRY) ∧
    (∀ s, op.getStrAttr "step_marker_location" = some s → s ≠ "" →
      StepMarkerLocation_Parse s = none →
      SetMetadataProtoStepMarkerLocation op =
        .error ("bad \x27step_marker_location\x27 attribute with value \x27" ++ s ++ "\x27")) ∧
    (∀ s location, op.getStrAttr "step_marker_location" = some s → s ≠ "" →
      StepMarkerLocation_Parse s = some location →
      SetMetadataProtoStepMarkerLocation op = .ok location) := by
  refine ⟨fun h => ?_, fun h => ?_, fun s h hne hp => ?_, fun s location h hne hp => ?_⟩
  · simp [SetMetadataProtoStepMarkerLocation, h]
  · simp [SetMetadataProtoStepMarkerLocation, h]
  · simp [SetMetadataProtoStepMarkerLocation, h, hne, hp]
  · simp [SetMetadataProtoStepMarkerLocation, h, hne, hp]

/-- Witness for C8 at a concrete launch node carrying a parseable
non-empty policy value. -/
theorem C8_step_marker_policy_witness :
    SetMetadataProtoStepMarkerLocation
      (Op.mk 0 "tf_device.launch_func" [] []
        [("step_marker_location", .str "STEP_MARK_NONE")] .nil)
      = Except.ok .STEP_MARK_NONE :=
  (C8_step_marker_policy _).2.2.2 "STEP_MARK_NONE" .STEP_MARK_NONE rfl
    (by decide) rfl

/-- C9: a launch_func without the _tpu_replicate marker is skipped: the
rewrite returns success and the node, its block, its parent and the id
supply are all returned unchanged. -/
theorem C9_skip_unmarked (ext : Externals) (dbg : Bool) (fuel : Nat) (mod : ModuleM)
    (devices : List String) (nid : Nat) (parent : Option Op) (pre : List Op)
    (launch_func : Op) (post : List Op)
    (h : launch_func.getStrAttr "_tpu_replicate" = none) :
    Rewrite ext dbg fuel mod devices nid parent pre launch_func post =
      .ok { newOps := [launch_func], pre := pre, post := post,
            parent := parent, nid := nid } := by
  unfold Rewrite
  rw [h]

/-- Witness for C9 at a concrete unmarked launch_func. -/
theorem C9_skip_unmarked_witness :
    Rewrite ext0 false 5 mod0 [] 50 none [] lfNoMarker [] =
      .ok { newOps := [lfNoMarker], pre := [], post := [],
            parent := none, nid := 50 } :=
  C9_skip_unmarked ext0 false 5 mod0 [] 50 none [] lfNoMarker [] rfl

/-- Pointwise zip access. -/
theorem get?_zip_of_both {α β : Type} :
    ∀ (l : List α) (l2 : List β) (k : Nat) (a : α) (b : β),
      l.get? k = some a → l2.get? k = some b → (l.zip l2).get? k = some (a, b) := by
  intro l
  induction l with
  | nil => intro l2 k a b h _; simp at h
  | cons x t ih =>
    intro l2 k a b h h2
    cases l2 with
    | nil => simp at h2
    | cons y t2 =>
      cases k with
      | zero =>
        cases h; cases h2; rfl
      | succ k2 =>
        simpa using ih t2 k2 a b (by simpa using h) (by simpa using h2)

/-- Filtering an enumeration by an index predicate that agrees with an
element predicate and dropping the indices is filtering by the element
predicate. -/
theorem filter_enumFrom_map_snd {α : Type} (p : α → Bool) (f : Nat → Bool) :
    ∀ (n : Nat) (l : List α), (∀ k x, l.get? k = some x → f (n + k) = p x) →
      ((List.enumFrom n l).filter (fun q => !(f q.1))).map Prod.snd
        = l.filter (fun x => !(p x)) := by
  intro n l
  induction l generalizing n with
  | nil => intro _; rfl
  | cons a t ih =>
    intro h
    have h0 : f n = p a := by simpa using h 0 a rfl
    have ht := ih (n + 1) (fun k x hk => by
      have := h (k + 1) x (by simpa using hk)
      simpa [Nat.add_comm, Nat.add_assoc, Nat.add_left_comm] using this)
    by_cases hp : p a
    · simp [List.enumFrom, List.filter, h0, hp, ht]
    · simp [List.enumFrom, List.filter, h0, hp, ht]

/-- The probes of BuildCompileOp carry exactly the non-statically-shaped
operands, in operand order, when the static test agrees with the operand
types. -/
theorem buildShapeOps_operands (nid : Nat) (metadata : TPUCompileMetadataProto) (lf : Op)
    (h : ∀ k v, lf.operands.get? k = some v →
      compileIsStatic metadata k = v.ty.staticallyShaped) :
    (buildShapeOps nid metadata lf).map Op.operands =
      (lf.operands.filter (fun v => !(v.ty.staticallyShaped))).map (fun v => [v]) := by
  have hfe : ((lf.operands.enum.filter
        (fun p => !(compileIsStatic metadata p.1))).map Prod.snd)
      = lf.operands.filter (fun v => !(v.ty.staticallyShaped)) := by
    have h2 := filter_enumFrom_map_snd (fun v : Value => v.ty.staticallyShaped)
      (compileIsStatic metadata) 0 lf.operands (fun k x hk => by simpa using h k x hk)
    simpa using h2
  unfold buildShapeOps
  rw [List.map_map]
  rw [show (Op.operands ∘ fun (q : Nat × (Nat × Value)) =>
      Op.mk (nid + q.1) "tf.Shape" [q.2.2] [shapeProbeType] [] Regions.nil)
      = ((fun (pr : Nat × Value) => [pr.2]) ∘ Prod.snd) from rfl]
  rw [← List.map_map, List.enum_map_snd]
  rw [show (fun (pr : Nat × Value) => [pr.2]) = ((fun (v : Value) => [v]) ∘ Prod.snd)
    from rfl]
  rw [← List.map_map, hfe]

/-- C3: for every successfully built compile node: its operands are
exactly one dynamic-shape probe (a tf.Shape of the operand) per operand
whose shape is not statically fully defined, in operand order; the
NumDynamicShapes attribute equals the number of probes; and it has
exactly two scalar-string results (status token and program handle). -/
theorem C3_compile_op_operands_and_results (ext : Externals) (dbg : Bool) (fuel : Nat)
    (mod : ModuleM) (lf : Op) (nr ncpr : Int) (cdev : String)
    (xla : Option DeviceAssignmentProto) (nid : Nat) (cb : CompileBuildOk)
    (hcb : BuildCompileOp ext dbg fuel mod lf nr ncpr cdev xla nid = .ok cb) :
    (cb.shapeOps.map Op.operands =
      (lf.operands.filter (fun v => !(v.ty.staticallyShaped))).map (fun v => [v])) ∧
    (∀ s ∈ cb.shapeOps, s.name = "tf.Shape") ∧
    (∃ inner, cb.compileLaunch.firstInnerOp = some inner ∧
      inner.name = "tf._TPUCompileMlir" ∧
      inner.operands = cb.shapeOps.map (fun s => s.resultVal 0) ∧
      inner.getIntAttr "NumDynamicShapes" = some (Int.ofNat cb.shapeOps.length) ∧
      inner.resultTypes = [strScalar, strScalar]) := by
  unfold BuildCompileOp at hcb
  cases hm : SetMetadataProtoFromLaunchFuncOp ext lf nr ncpr xla with
  | error e => rw [hm] at hcb; cases hcb
  | ok m =>
    rw [hm] at hcb
    obtain ⟨hsm, hpm, hargs, hrv, _, _, _⟩ :=
      SetMetadataProtoFromLaunchFuncOp_ok_inv ext lf nr ncpr xla m hm
    obtain ⟨shardings, hsh2, hlen2, hloop⟩ := SetMetadataProtoArgs_ok_inv ext lf m.args hargs
    have hstat : ∀ k v, lf.operands.get? k = some v →
        compileIsStatic m k = v.ty.staticallyShaped := by
      intro k v hk
      have hk2 : lf.operandTypes.get? k = some v.ty := by
        show (lf.operands.map Value.ty).get? k = some v.ty
        rw [List.get?_eq_getElem?, List.getElem?_map, ← List.get?_eq_getElem?, hk]
        rfl
      have hklt : k < shardings.length := by
        rw [hlen2]
        have := List.get?_eq_some.mp hk
        exact this.1
      obtain ⟨s, hs⟩ : ∃ s, shardings.get? k = some s :=
        ⟨shardings.get ⟨k, hklt⟩, List.get?_eq_get hklt⟩
      have hz := get?_zip_of_both lf.operandTypes shardings k v.ty s hk2 hs
      obtain ⟨a, hag, _, _, hshape⟩ :=
        setMetadataProtoArgsLoop_ok_get ext _ 0 m.args hloop k v.ty s hz
      unfold compileIsStatic
      rw [hag]
      show a.shape.isFullyDefined = v.ty.staticallyShaped
      rw [hshape]
      cases v.ty with
      | tensor sh3 e =>
        cases sh3 <;> rfl
    cases hf : lf.getSymAttr "func" with
    | none => rw [hf] at hcb; cases hcb
    | some fname =>
      rw [hf] at hcb
      simp only [] at hcb
      cases hlk : mod.lookupFunc fname with
      | none => rw [hlk] at hcb; cases hcb
      | some func =>
        rw [hlk] at hcb
        simp only [] at hcb
        cases he : EncapsulateFuncAndSerialize ext fuel mod func with
        | error e => rw [he] at hcb; cases hcb
        | ok pr =>
          rw [he] at hcb
          obtain ⟨dest, txt⟩ := pr
          cases hcb
          refine ⟨buildShapeOps_operands nid m lf hstat, ?_, ?_⟩
          · intro s hsmem
            obtain ⟨q, _, hq⟩ := List.mem_map.mp hsmem
            rw [← hq]
            rfl
          · exact ⟨_, rfl, rfl, rfl, rfl, rfl⟩

/-- Witness for C3 on a concrete launch_func with one static and one
dynamic operand: the build succeeds and all C3 conclusions hold. -/
theorem C3_compile_op_operands_and_results_witness :
    ∃ cb, BuildCompileOp ext0 false 9 mod0 lfC3 1 1 "/CPU:0" none 10 = .ok cb ∧
      ((cb.shapeOps.map Op.operands =
        (lfC3.operands.filter (fun v => !(v.ty.staticallyShaped))).map (fun v => [v])) ∧
      (∀ s ∈ cb.shapeOps, s.name = "tf.Shape") ∧
      (∃ inner, cb.compileLaunch.firstInnerOp = some inner ∧
        inner.name = "tf._TPUCompileMlir" ∧
        inner.operands = cb.shapeOps.map (fun s => s.resultVal 0) ∧
        inner.getIntAttr "NumDynamicShapes" = some (Int.ofNat cb.shapeOps.length) ∧
        inner.resultTypes = [strScalar, strScalar])) :=
  ⟨_, rfl, C3_compile_op_operands_and_results ext0 false 9 mod0 lfC3 1 1 "/CPU:0"
    none 10 _ rfl⟩

/-! ## Structural helper lemmas -/

theorem find?_append_of_none {α : Type} (p : α → Bool) :
    ∀ (l1 l2 : List α), l1.find? p = none → (l1 ++ l2).find? p = l2.find? p := by
  intro l1 l2 h
  induction l1 with
  | nil => rfl
  | cons x t ih =>
    rw [List.find?_cons] at h
    cases hx : p x with
    | true => rw [hx] at h; cases h
    | false =>
      rw [hx] at h
      rw [List.cons_append, List.find?_cons, hx]
      exact ih h

/-- setAttr establishes the binding it writes. -/
theorem getAttr_setAttr (o : Op) (a : String) (v : AttrValue) :
    (o.setAttr a v).getAttr a = some v := by
  cases o with
  | mk i n ops tys at_ rs =>
    show (((at_.filter (fun p => p.1 ≠ a)) ++ [(a, v)]).find?
      (fun p => p.1 == a)).map Prod.snd = some v
    rw [find?_append_of_none]
    · simp [List.find?]
    · rw [List.find?_eq_none]
      intro x hx
      have := (List.mem_filter.mp hx).2
      simp only [decide_eq_true_eq] at this
      simp [this]

theorem mapOperands_name (f : Value → Value) (o : Op) :
    (Op.mapOperands f o).name = o.name := by
  cases o; rfl

theorem mapOperands_opId (f : Value → Value) (o : Op) :
    (Op.mapOperands f o).opId = o.opId := by
  cases o; rfl

theorem mapOperands_resultTypes (f : Value → Value) (o : Op) :
    (Op.mapOperands f o).resultTypes = o.resultTypes := by
  cases o; rfl

theorem mapOperands_getAttr (f : Value → Value) (o : Op) (a : String) :
    (Op.mapOperands f o).getAttr a = o.getAttr a := by
  cases o; rfl

theorem mapOperands_getStrAttr (f : Value → Value) (o : Op) (a : String) :
    (Op.mapOperands f o).getStrAttr a = o.getStrAttr a := by
  cases o; rfl

theorem mapOperands_firstInnerOp (f : Value → Value) (o : Op) :
    (Op.mapOperands f o).firstInnerOp = o.firstInnerOp.map (Op.mapOperands f) := by
  cases o with
  | mk i n ops tys a rs =>
    cases rs with
    | nil => rfl
    | cons r rs2 =>
      cases r with
      | nil => rfl
      | cons o2 os => rfl

theorem getLast?_append3_map {α β : Type} (f : α → β) (l : List α) (a b c : α) :
    ((l ++ [a, b, c]).map f).getLast? = some (f c) := by
  rw [show l ++ [a, b, c] = (l ++ [a, b]) ++ [c] by simp]
  rw [List.map_append]
  simp

/-! ## Mutual structural lemmas on operation trees -/

mutual
theorem Op.mapOperands_comp (f g : Value → Value) : ∀ (o : Op),
    Op.mapOperands f (Op.mapOperands g o) = Op.mapOperands (fun v => f (g v)) o
  | .mk i n ops tys a rs => by
    simp only [Op.mapOperands, List.map_map, Regions.mapOperands_comp_regions f g rs]
    rfl

theorem Regions.mapOperands_comp_regions (f g : Value → Value) : ∀ (rs : Regions),
    Regions.mapOperands f (Regions.mapOperands g rs)
      = Regions.mapOperands (fun v => f (g v)) rs
  | .nil => rfl
  | .cons r rs => by
    simp only [Regions.mapOperands, Ops.mapOperands_comp_ops f g r,
      Regions.mapOperands_comp_regions f g rs]

theorem Ops.mapOperands_comp_ops (f g : Value → Value) : ∀ (os : Ops),
    Ops.mapOperands f (Ops.mapOperands g os) = Ops.mapOperands (fun v => f (g v)) os
  | .nil => rfl
  | .cons o os => by
    simp only [Ops.mapOperands, Op.mapOperands_comp f g o, Ops.mapOperands_comp_ops f g os]
end

mutual
theorem Op.countName_mapOperands (f : Value → Value) (s : String) : ∀ (o : Op),
    Op.countName s (Op.mapOperands f o) = Op.countName s o
  | .mk i n ops tys a rs => by
    simp only [Op.mapOperands, Op.countName, Regions.countName_mapOperands_regions f s rs]

theorem Regions.countName_mapOperands_regions (f : Value → Value) (s : String) : ∀ (rs : Regions),
    Regions.countName s (Regions.mapOperands f rs) = Regions.countName s rs
  | .nil => rfl
  | .cons r rs => by
    simp only [Regions.mapOperands, Regions.countName, Ops.countName_mapOperands_ops f s r,
      Regions.countName_mapOperands_regions f s rs]

theorem Ops.countName_mapOperands_ops (f : Value → Value) (s : String) : ∀ (os : Ops),
    Ops.countName s (Ops.mapOperands f os) = Ops.countName s os
  | .nil => rfl
  | .cons o os => by
    simp only [Ops.mapOperands, Ops.countName, Op.countName_mapOperands f s o,
      Ops.countName_mapOperands_ops f s os]
end

mutual
theorem Op.containsId_mapOperands (f : Value → Value) (i : Nat) : ∀ (o : Op),
    Op.containsId i (Op.mapOperands f o) = Op.containsId i o
  | .mk j n ops tys a rs => by
    simp only [Op.mapOperands, Op.containsId, Regions.containsId_mapOperands_regions f i rs]

theorem Regions.containsId_mapOperands_regions (f : Value → Value) (i : Nat) : ∀ (rs : Regions),
    Regions.containsId i (Regions.mapOperands f rs) = Regions.containsId i rs
  | .nil => rfl
  | .cons r rs => by
    simp only [Regions.mapOperands, Regions.containsId,
      Ops.containsId_mapOperands_ops f i r, Regions.containsId_mapOperands_regions f i rs]

theorem Ops.containsId_mapOperands_ops (f : Value → Value) (i : Nat) : ∀ (os : Ops),
    Ops.containsId i (Ops.mapOperands f os) = Ops.containsId i os
  | .nil => rfl
  | .cons o os => by
    simp only [Ops.mapOperands, Ops.containsId, Op.containsId_mapOperands f i o,
      Ops.containsId_mapOperands_ops f i os]
end

/-- Counting after a substitution that hits nothing mapping to v. -/
theorem count_map_eq_zero {f : Value → Value} {v : Value}
    (hf : ∀ u, f u ≠ v) (l : List Value) : (l.map f).count v = 0 := by
  rw [List.count_eq_zero]
  intro hmem
  obtain ⟨u, _, hu⟩ := List.mem_map.mp hmem
  exact hf u hu

mutual
theorem Op.usesCount_mapOperands_zero (f : Value → Value) (v : Value)
    (hf : ∀ u, f u ≠ v) : ∀ (o : Op), Op.usesCount v (Op.mapOperands f o) = 0
  | .mk i n ops tys a rs => by
    simp only [Op.mapOperands, Op.usesCount, count_map_eq_zero hf,
      Regions.usesCount_mapOperands_zero_regions f v hf rs]

theorem Regions.usesCount_mapOperands_zero_regions (f : Value → Value) (v : Value)
    (hf : ∀ u, f u ≠ v) : ∀ (rs : Regions),
    Regions.usesCount v (Regions.mapOperands f rs) = 0
  | .nil => rfl
  | .cons r rs => by
    simp only [Regions.mapOperands, Regions.usesCount,
      Ops.usesCount_mapOperands_zero_ops f v hf r,
      Regions.usesCount_mapOperands_zero_regions f v hf rs]

theorem Ops.usesCount_mapOperands_zero_ops (f : Value → Value) (v : Value)
    (hf : ∀ u, f u ≠ v) : ∀ (os : Ops), Ops.usesCount v (Ops.mapOperands f os) = 0
  | .nil => rfl
  | .cons o os => by
    simp only [Ops.mapOperands, Ops.usesCount,
      Op.usesCount_mapOperands_zero f v hf o, Ops.usesCount_mapOperands_zero_ops f v hf os]
end

/-- Counting among substituted operands when v has exactly the preimages
w and v itself. -/
theorem count_map_pair {f : Value → Value} {v w : Value}
    (hw : f w = v) (hv : f v = v) (hwv : w ≠ v)
    (huniq : ∀ u, f u = v → u = w ∨ u = v) (l : List Value) :
    (l.map f).count v = l.count w + l.count v := by
  induction l with
  | nil => rfl
  | cons u t ih =>
    simp only [List.map_cons, List.count_cons, ih]
    by_cases hu : u = w
    · subst hu
      simp [hw, hwv, Ne.symm hwv]
      omega
    · by_cases hu2 : u = v
      · subst hu2
        simp [hv, hu]
        omega
      · have : f u ≠ v := fun he => by
          cases huniq u he with
          | inl h => exact hu h
          | inr h => exact hu2 h
        simp [this, hu, hu2]

mutual
theorem Op.usesCount_mapOperands_pair (f : Value → Value) (v w : Value)
    (hw : f w = v) (hv : f v = v) (hwv : w ≠ v)
    (huniq : ∀ u, f u = v → u = w ∨ u = v) : ∀ (o : Op),
    Op.usesCount v (Op.mapOperands f o) = Op.usesCount w o + Op.usesCount v o
  | .mk i n ops tys a rs => by
    simp only [Op.mapOperands, Op.usesCount, count_map_pair hw hv hwv huniq,
      Regions.usesCount_mapOperands_pair_regions f v w hw hv hwv huniq rs]
    omega

theorem Regions.usesCount_mapOperands_pair_regions (f : Value → Value) (v w : Value)
    (hw : f w = v) (hv : f v = v) (hwv : w ≠ v)
    (huniq : ∀ u, f u = v → u = w ∨ u = v) : ∀ (rs : Regions),
    Regions.usesCount v (Regions.mapOperands f rs)
      = Regions.usesCount w rs + Regions.usesCount v rs
  | .nil => rfl
  | .cons r rs => by
    simp only [Regions.mapOperands, Regions.usesCount,
      Ops.usesCount_mapOperands_pair_ops f v w hw hv hwv huniq r,
      Regions.usesCount_mapOperands_pair_regions f v w hw hv hwv huniq rs]
    omega

theorem Ops.usesCount_mapOperands_pair_ops (f : Value → Value) (v w : Value)
    (hw : f w = v) (hv : f v = v) (hwv : w ≠ v)
    (huniq : ∀ u, f u = v → u = w ∨ u = v) : ∀ (os : Ops),
    Ops.usesCount v (Ops.mapOperands f os) = Ops.usesCount w os + Ops.usesCount v os
  | .nil => rfl
  | .cons o os => by
    simp only [Ops.mapOperands, Ops.usesCount,
      Op.usesCount_mapOperands_pair f v w hw hv hwv huniq o,
      Ops.usesCount_mapOperands_pair_ops f v w hw hv hwv huniq os]
    omega
end

/-- A bounded operation tree has no use of a result of an operation with
an id at or above the bound. -/
theorem count_eq_zero_of_all_bounded {n j : Nat} (hj : n ≤ j) (i : Nat) (ty : MType)
    (l : List Value)
    (hb : l.all (fun v => match v with
      | .res a _ _ => decide (a < n) | .arg _ _ => true) = true) :
    l.count (Value.res j i ty) = 0 := by
  rw [List.count_eq_zero]
  intro hmem
  have := List.all_eq_true.mp hb _ hmem
  simp at this
  omega

mutual
theorem Op.usesCount_zero_of_boundedBy (n j : Nat) (hj : n ≤ j) (i : Nat) (ty : MType) :
    ∀ (o : Op), Op.boundedBy n o = true → Op.usesCount (Value.res j i ty) o = 0
  | .mk a nm ops tys at_ rs => by
    intro hb
    simp only [Op.boundedBy, Bool.and_eq_true] at hb
    simp only [Op.usesCount, count_eq_zero_of_all_bounded hj i ty ops hb.1.2,
      Regions.usesCount_zero_of_boundedBy_regions n j hj i ty rs hb.2]

theorem Regions.usesCount_zero_of_boundedBy_regions (n j : Nat) (hj : n ≤ j) (i : Nat)
    (ty : MType) : ∀ (rs : Regions), Regions.boundedBy n rs = true →
    Regions.usesCount (Value.res j i ty) rs = 0
  | .nil, _ => rfl
  | .cons r rs, hb => by
    simp only [Regions.boundedBy, Bool.and_eq_true] at hb
    simp only [Regions.usesCount, Ops.usesCount_zero_of_boundedBy_ops n j hj i ty r hb.1,
      Regions.usesCount_zero_of_boundedBy_regions n j hj i ty rs hb.2]

theorem Ops.usesCount_zero_of_boundedBy_ops (n j : Nat) (hj : n ≤ j) (i : Nat)
    (ty : MType) : ∀ (os : Ops), Ops.boundedBy n os = true →
    Ops.usesCount (Value.res j i ty) os = 0
  | .nil, _ => rfl
  | .cons o os, hb => by
    simp only [Ops.boundedBy, Bool.and_eq_true] at hb
    simp only [Ops.usesCount, Op.usesCount_zero_of_boundedBy n j hj i ty o hb.1,
      Ops.usesCount_zero_of_boundedBy_ops n j hj i ty os hb.2]
end

mutual
theorem Op.containsId_false_of_idsGe (n i : Nat) (hi : i < n) :
    ∀ (o : Op), Op.idsGe n o = true → Op.containsId i o = false
  | .mk j nm ops tys at_ rs => by
    intro hb
    simp only [Op.idsGe, Bool.and_eq_true, decide_eq_true_eq] at hb
    simp only [Op.containsId, Regions.containsId_false_of_idsGe_regions n i hi rs hb.2,
      Bool.or_false, beq_eq_false_iff_ne, ne_eq]
    omega

theorem Regions.containsId_false_of_idsGe_regions (n i : Nat) (hi : i < n) :
    ∀ (rs : Regions), Regions.idsGe n rs = true → Regions.containsId i rs = false
  | .nil, _ => rfl
  | .cons r rs, hb => by
    simp only [Regions.idsGe, Bool.and_eq_true] at hb
    simp only [Regions.containsId, Ops.containsId_false_of_idsGe_ops n i hi r hb.1,
      Regions.containsId_false_of_idsGe_regions n i hi rs hb.2, Bool.or_false]

theorem Ops.containsId_false_of_idsGe_ops (n i : Nat) (hi : i < n) :
    ∀ (os : Ops), Ops.idsGe n os = true → Ops.containsId i os = false
  | .nil, _ => rfl
  | .cons o os, hb => by
    simp only [Ops.idsGe, Bool.and_eq_true] at hb
    simp only [Ops.containsId, Op.containsId_false_of_idsGe n i hi o hb.1,
      Ops.containsId_false_of_idsGe_ops n i hi os hb.2, Bool.or_false]
end

/-! ## Structural inversion of BuildCompileOp and counting helpers -/

/-- Structural inversion of a successful BuildCompileOp: the probes are
the buildShapeOps list, the returned wrapper wraps the compile operation
(two string results, probe operands) with ids laid out from nid, and the
next id is advanced past them. -/
theorem BuildCompileOp_ok_shape (ext : Externals) (dbg : Bool) (fuel : Nat)
    (mod : ModuleM) (lf : Op) (nr ncpr : Int) (cdev : String)
    (xla : Option DeviceAssignmentProto) (nid : Nat) (cb : CompileBuildOk)
    (hcb : BuildCompileOp ext dbg fuel mod lf nr ncpr cdev xla nid = .ok cb) :
    ∃ (m : TPUCompileMetadataProto) (attrs2 : List (String × AttrValue)),
      SetMetadataProtoFromLaunchFuncOp ext lf nr ncpr xla = .ok m ∧
      cb.shapeOps = buildShapeOps nid m lf ∧
      cb.compileLaunch = (WrapOpInLaunch (nid + cb.shapeOps.length + 1)
        (Op.mk (nid + cb.shapeOps.length) "tf._TPUCompileMlir"
          (cb.shapeOps.map (fun s => s.resultVal 0)) [strScalar, strScalar]
          attrs2 Regions.nil) cdev).1 ∧
      cb.nid = nid + cb.shapeOps.length + 3 := by
  unfold BuildCompileOp at hcb
  cases hm : SetMetadataProtoFromLaunchFuncOp ext lf nr ncpr xla with
  | error e => rw [hm] at hcb; cases hcb
  | ok m =>
    rw [hm] at hcb
    cases hf : lf.getSymAttr "func" with
    | none => rw [hf] at hcb; cases hcb
    | some fname =>
      rw [hf] at hcb
      simp only [] at hcb
      cases hlk : mod.lookupFunc fname with
      | none => rw [hlk] at hcb; cases hcb
      | some func =>
        rw [hlk] at hcb
        simp only [] at hcb
        cases he : EncapsulateFuncAndSerialize ext fuel mod func with
        | error e => rw [he] at hcb; cases hcb
        | ok pr =>
          rw [he] at hcb
          obtain ⟨dest, txt⟩ := pr
          cases hcb
          exact ⟨m, _, rfl, rfl, rfl, rfl⟩

/-- Occurrence count of a name over the tree of one operation, read off
its root name and regions. -/
theorem Op.countName_eq (s : String) (o : Op) :
    Op.countName s o = (if o.name = s then 1 else 0) + Regions.countName s o.regions := by
  cases o; rfl

theorem opsCountName_append (s : String) (l1 l2 : List Op) :
    opsCountName s (l1 ++ l2) = opsCountName s l1 + opsCountName s l2 := by
  simp [opsCountName]

theorem opsCountName_cons (s : String) (o : Op) (l : List Op) :
    opsCountName s (o :: l) = Op.countName s o + opsCountName s l := by
  simp [opsCountName]

theorem opsCountName_map_mapOperands (s : String) (f : Value → Value) (l : List Op) :
    opsCountName s (l.map (Op.mapOperands f)) = opsCountName s l := by
  unfold opsCountName
  rw [List.map_map]
  congr 1
  apply List.map_congr_left
  intro o _
  exact Op.countName_mapOperands f s o

theorem opsUsesCount_append (v : Value) (l1 l2 : List Op) :
    opsUsesCount v (l1 ++ l2) = opsUsesCount v l1 + opsUsesCount v l2 := by
  simp [opsUsesCount]

theorem opsUsesCount_map_zero (v : Value) (f : Value → Value)
    (hf : ∀ u, f u ≠ v) (l : List Op) :
    opsUsesCount v (l.map (Op.mapOperands f)) = 0 := by
  unfold opsUsesCount
  rw [List.map_map]
  rw [show (Op.usesCount v ∘ Op.mapOperands f) = fun o => Op.usesCount v
    (Op.mapOperands f o) from rfl]
  rw [List.map_congr_left (fun o _ => Op.usesCount_mapOperands_zero f v hf o)]
  simp

theorem opsUsesCount_map_pair (v w : Value) (f : Value → Value)
    (hw : f w = v) (hv : f v = v) (hwv : w ≠ v)
    (huniq : ∀ u, f u = v → u = w ∨ u = v) (l : List Op) :
    opsUsesCount v (l.map (Op.mapOperands f)) = opsUsesCount w l + opsUsesCount v l := by
  unfold opsUsesCount
  rw [List.map_map]
  rw [show (Op.usesCount v ∘ Op.mapOperands f) = fun o => Op.usesCount v
    (Op.mapOperands f o) from rfl]
  rw [List.map_congr_left
    (fun o _ => Op.usesCount_mapOperands_pair f v w hw hv hwv huniq o)]
  induction l with
  | nil => rfl
  | cons o t ih => simp at ih ⊢; omega

theorem opsContainsId_append (i : Nat) (l1 l2 : List Op) :
    opsContainsId i (l1 ++ l2) = (opsContainsId i l1 || opsContainsId i l2) := by
  simp [opsContainsId, List.any_append]

theorem opsContainsId_cons (i : Nat) (o : Op) (l : List Op) :
    opsContainsId i (o :: l) = (Op.containsId i o || opsContainsId i l) := by
  simp [opsContainsId]

theorem opsContainsId_nil (i : Nat) : opsContainsId i ([] : List Op) = false := rfl

theorem opsContainsId_map_mapOperands (i : Nat) (f : Value → Value) (l : List Op) :
    opsContainsId i (l.map (Op.mapOperands f)) = opsContainsId i l := by
  unfold opsContainsId
  rw [List.any_map]
  induction l with
  | nil => rfl
  | cons o t ih =>
    simp only [List.any_cons, Function.comp_apply, Op.containsId_mapOperands, ih]

/-- An operation of the list makes its id visible to opsContainsId. -/
theorem opsContainsId_of_mem {l : List Op} {o : Op} (hmem : o ∈ l) :
    opsContainsId o.opId l = true := by
  unfold opsContainsId
  rw [List.any_eq_true]
  refine ⟨o, hmem, ?_⟩
  cases o with
  | mk i n ops tys a rs =>
    simp only [Op.containsId, Op.opId, beq_self_eq_true, Bool.true_or]

/-- Counting a name over a list of region-free operations built by a map. -/
theorem opsCountName_map_leaf {α : Type} (s nm : String) (g : α → Op)
    (hg : ∀ q, (g q).name = nm ∧ (g q).regions = Regions.nil) (l : List α) :
    opsCountName s (l.map g) = if nm = s then l.length else 0 := by
  induction l with
  | nil => simp [opsCountName]
  | cons q t ih =>
    rw [List.map_cons, opsCountName_cons, ih, Op.countName_eq, (hg q).1, (hg q).2]
    show ((if nm = s then 1 else 0) + 0) + _ = _
    by_cases h : nm = s <;> simp [h, Nat.add_comm]

theorem opsCountName_nil (s : String) : opsCountName s ([] : List Op) = 0 := rfl

/-- Every probe is a region-free tf.Shape. -/
theorem buildShapeOps_leaf (nid : Nat) (m : TPUCompileMetadataProto) (lf : Op) :
    ∀ o ∈ buildShapeOps nid m lf, o.name = "tf.Shape" ∧ o.regions = Regions.nil := by
  intro o hmem
  unfold buildShapeOps at hmem
  obtain ⟨q, _, hq⟩ := List.mem_map.mp hmem
  rw [← hq]
  exact ⟨rfl, rfl⟩

/-- Name counting over the probe list. -/
theorem opsCountName_buildShapeOps (s : String) (nid : Nat)
    (m : TPUCompileMetadataProto) (lf : Op) :
    opsCountName s (buildShapeOps nid m lf)
      = if "tf.Shape" = s then (buildShapeOps nid m lf).length else 0 := by
  unfold buildShapeOps
  rw [opsCountName_map_leaf s "tf.Shape"
    (fun q : Nat × (Nat × Value) =>
      Op.mk (nid + q.1) "tf.Shape" [q.2.2] [shapeProbeType] [] Regions.nil)
    (fun q => ⟨rfl, rfl⟩)]
  rw [List.length_map]

/-- The assert builder produces a launch wrapper of a region-free assert
operation. -/
theorem BuildAssert_eq (a : Nat) (co : Op) (dev : String) :
    (BuildTPUCompileSucceededAssertOp a co dev).1
      = (WrapOpInLaunch (a + 1) (Op.mk a "tf.TPUCompileSucceededAssert"
          [co.resultVal 0] [] [] Regions.nil) dev).1 := rfl

/-- The execute builder produces a region-free operation. -/
theorem BuildExecuteOp_eq (a : Nat) (ins : List Value) (lf2 : Op) :
    BuildExecuteOp a ins lf2
      = Op.mk a "tf.TPUExecute" ins lf2.resultTypes [] Regions.nil := rfl

/-- Name counting over a launch wrapper of a region-free operation. -/
theorem countName_WrapOpInLaunch_leaf (s nm : String) (a b : Nat) (ops : List Value)
    (tys : List MType) (attrs2 : List (String × AttrValue)) (dev : String) :
    Op.countName s (WrapOpInLaunch a (Op.mk b nm ops tys attrs2 Regions.nil) dev).1
      = ((if "tf_device.launch" = s then 1 else 0) + (if nm = s then 1 else 0))
        + (if "tf_device.return" = s then 1 else 0) := by
  show ((if "tf_device.launch" = s then 1 else 0) +
    (((if nm = s then 1 else 0) + 0) + (((if "tf_device.return" = s then 1 else 0) + 0)
      + 0) + 0)) = _
  omega

/-! ## Value-level substitution lemmas -/

theorem compilationResultSubst_ne (crIds : List Nat) (cid : Nat) (a j : Nat)
    (ty : MType) (ha : a ∉ crIds) :
    compilationResultSubst crIds cid (Value.res a j ty) = Value.res a j ty := by
  cases j with
  | zero => simp [compilationResultSubst, ha]
  | succ j2 => rfl

/-- Every output of the placeholder substitution is either the input
itself or the compile status result. -/
theorem compilationResultSubst_out (crIds : List Nat) (cid : Nat) (v : Value) :
    compilationResultSubst crIds cid v = v ∨
      ∃ ty, compilationResultSubst crIds cid v = Value.res cid 0 ty := by
  cases v with
  | arg n ty => left; rfl
  | res a j ty =>
    cases j with
    | zero =>
      by_cases ha : a ∈ crIds
      · right; exact ⟨ty, by simp [compilationResultSubst, ha]⟩
      · left; simp [compilationResultSubst, ha]
    | succ j2 => left; rfl

theorem replaceResultUsesSubst_res (old new k a j : Nat) (ty : MType) :
    replaceResultUsesSubst old new k (Value.res a j ty)
      = if a = old ∧ j < k then Value.res new j ty else Value.res a j ty := rfl

/-- The result substitution never produces a result of the old (replaced)
operation at a replaced index. -/
theorem replaceResultUsesSubst_ne_old (old new k i : Nat) (ty : MType)
    (hw : new ≠ old) (hik : i < k) :
    ∀ w, replaceResultUsesSubst old new k w ≠ Value.res old i ty := by
  intro w heq
  cases w with
  | arg n ty2 => exact absurd heq (by simp [replaceResultUsesSubst])
  | res a j ty2 =>
    rw [replaceResultUsesSubst_res] at heq
    by_cases hc : a = old ∧ j < k
    · rw [if_pos hc] at heq
      cases heq
      exact hw rfl
    · rw [if_neg hc] at heq
      cases heq
      exact hc ⟨rfl, hik⟩

theorem opsUsesCount_zero_of_all_bounded (n j : Nat) (hj : n ≤ j) (i : Nat)
    (ty : MType) (l : List Op) (hb : l.all (Op.boundedBy n) = true) :
    opsUsesCount (Value.res j i ty) l = 0 := by
  unfold opsUsesCount
  induction l with
  | nil => rfl
  | cons o t ih =>
    simp only [List.all_cons, Bool.and_eq_true] at hb
    simp only [List.map_cons, List.sum_cons,
      Op.usesCount_zero_of_boundedBy n j hj i ty o hb.1, Nat.zero_add]
    exact ih (by simp [List.all_eq_true] at hb ⊢; exact hb.2)

theorem Op.opId_lt_of_boundedBy {n : Nat} {o : Op} (hb : Op.boundedBy n o = true) :
    o.opId < n := by
  cases o with
  | mk i nm ops tys a rs =>
    simp only [Op.boundedBy, Bool.and_eq_true, decide_eq_true_eq] at hb
    exact hb.1.1

/-- Ids collected from placeholders of a bounded block are below the
bound. -/
theorem compilationResultIds_lt (blockOps : List Op) (n : Nat)
    (hb : blockOps.all (Op.boundedBy n) = true) :
    ∀ a ∈ compilationResultIds blockOps, a < n := by
  intro a ha
  unfold compilationResultIds at ha
  obtain ⟨o, hom, heq⟩ := List.mem_filterMap.mp ha
  by_cases hname : o.name = "tf.TPUCompilationResult"
  · rw [if_pos hname] at heq
    cases heq
    exact Op.opId_lt_of_boundedBy (List.all_eq_true.mp hb o hom)
  · rw [if_neg hname] at heq
    cases heq

theorem mapOperands_numResults (f : Value → Value) (o : Op) :
    (Op.mapOperands f o).numResults = o.numResults := by
  unfold Op.numResults
  rw [mapOperands_resultTypes]

theorem map_mapOperands_comp (f g : Value → Value) (l : List Op) :
    (l.map (Op.mapOperands g)).map (Op.mapOperands f)
      = l.map (Op.mapOperands (fun v => f (g v))) := by
  rw [List.map_map]
  apply List.map_congr_left
  intro o _
  exact Op.mapOperands_comp f g o

theorem opsContainsId_buildShapeOps (nid : Nat) (m : TPUCompileMetadataProto)
    (lf : Op) (i : Nat) (hi : i < nid) :
    opsContainsId i (buildShapeOps nid m lf) = false := by
  unfold opsContainsId
  rw [List.any_eq_false]
  intro o hmem
  obtain ⟨q, _, hq⟩ := List.mem_map.mp hmem
  rw [← hq]
  simp only [Op.containsId, Regions.containsId, Bool.or_false, beq_iff_eq]
  omega

theorem containsId_WrapOpInLaunch_leaf (i a b : Nat) (nm : String) (ops : List Value)
    (tys : List MType) (attrs2 : List (String × AttrValue)) (dev : String)
    (hia : i ≠ a) (hib : i ≠ b) (hia2 : i ≠ a + 1) :
    Op.containsId i (WrapOpInLaunch a (Op.mk b nm ops tys attrs2 Regions.nil) dev).1
      = false := by
  show ((a == i) || (((b == i) || false) || (((a + 1 == i) || false) || false)
    || false)) = false
  simp only [Bool.or_false]
  simp [beq_eq_false_iff_ne]
  omega

/-! ## Characterizations of the successful Rewrite paths -/

/-- A marked launch_func with partition count 1 whose device resolution
and compile build succeed is rewritten to the single-execute result. -/
theorem Rewrite_ok_single (ext : Externals) (dbg : Bool) (fuel : Nat) (mod : ModuleM)
    (devices : List String) (nid : Nat) (parent : Option Op) (pre : List Op)
    (lf : Op) (post : List Op) (c : String) (tda : TPUDeviceAssignment)
    (cb : CompileBuildOk)
    (hmarker : lf.getStrAttr "_tpu_replicate" = some c)
    (hncpr : lf.getIntAttr "num_cores_per_replica" = some 1)
    (hres : ext.getTPUCompilationAndExecutionDevices devices (numReplicasOf parent) 1
      = .ok tda)
    (hcb : BuildCompileOp ext dbg fuel mod lf (numReplicasOf parent) 1
      tda.compilation_device tda.xla_device_assignment nid = .ok cb) :
    Rewrite ext dbg fuel mod devices nid parent pre lf post =
      .ok (rewriteSingleResult ext tda cb parent pre lf post) := by
  unfold Rewrite
  rw [hmarker]
  simp only []
  rw [hncpr]
  simp only []
  rw [hres]
  simp only []
  rw [hcb]
  simp only []
  norm_num

/-- A marked launch_func with partition count above 1 whose device
resolution and compile build succeed is rewritten to the
parallel-execute result. -/
theorem Rewrite_ok_parallel (ext : Externals) (dbg : Bool) (fuel : Nat) (mod : ModuleM)
    (devices : List String) (nid : Nat) (parent : Option Op) (pre : List Op)
    (lf : Op) (post : List Op) (c : String) (ncpr : Int) (tda : TPUDeviceAssignment)
    (cb : CompileBuildOk)
    (hmarker : lf.getStrAttr "_tpu_replicate" = some c)
    (hncpr : lf.getIntAttr "num_cores_per_replica" = some ncpr)
    (hgt : 1 < ncpr)
    (hres : ext.getTPUCompilationAndExecutionDevices devices (numReplicasOf parent)
      ncpr = .ok tda)
    (hcb : BuildCompileOp ext dbg fuel mod lf (numReplicasOf parent) ncpr
      tda.compilation_device tda.xla_device_assignment nid = .ok cb) :
    Rewrite ext dbg fuel mod devices nid parent pre lf post =
      .ok (rewriteParallelResult ext tda cb parent pre lf post ncpr) := by
  unfold Rewrite
  rw [hmarker]
  simp only []
  rw [hncpr]
  simp only []
  rw [hres]
  simp only []
  rw [hcb]
  simp only []
  rw [if_pos hgt]

/-- C2: rewriting a marked launch_func with partition count 1 and no
enclosing replicate creates exactly one compile node, one
compile-success-assert node and one execute node; the execute node (and
its launch wrapper, the last inserted operation) has the launch_func's
result types; every use of the launch_func's i-th result in the block is
substituted by result i of the execute wrapper (together with the
placeholder redirect); no use of any launch_func result remains; and the
launch_func itself no longer occurs in the block. -/
theorem C2_single_core_rewrite (ext : Externals) (dbg : Bool) (fuel : Nat)
    (mod : ModuleM) (devices : List String) (nid : Nat) (parent : Option Op)
    (pre post : List Op) (lf : Op) (c : String) (tda : TPUDeviceAssignment)
    (cb : CompileBuildOk)
    (hmarker : lf.getStrAttr "_tpu_replicate" = some c)
    (hrep : replicateParentOf parent = none)
    (hncpr : lf.getIntAttr "num_cores_per_replica" = some 1)
    (hres : ext.getTPUCompilationAndExecutionDevices devices 1 1 = .ok tda)
    (hcb : BuildCompileOp ext dbg fuel mod lf 1 1 tda.compilation_device
      tda.xla_device_assignment nid = .ok cb)
    (hname : lf.name = "tf_device.launch_func")
    (hregs : lf.regions = Regions.nil)
    (hpreid : opsContainsId lf.opId (pre ++ post) = false)
    (hnoself : ∀ v ∈ lf.operands, v.refOp ≠ some lf.opId)
    (hbound : (pre ++ lf :: post).all (Op.boundedBy nid) = true) :
    Rewrite ext dbg fuel mod devices nid parent pre lf post =
      .ok (rewriteSingleResult ext tda cb parent pre lf post) ∧
    opsCountName "tf._TPUCompileMlir"
        (rewriteSingleResult ext tda cb parent pre lf post).block
      = opsCountName "tf._TPUCompileMlir" (pre ++ post) + 1 ∧
    opsCountName "tf.TPUCompileSucceededAssert"
        (rewriteSingleResult ext tda cb parent pre lf post).block
      = opsCountName "tf.TPUCompileSucceededAssert" (pre ++ post) + 1 ∧
    opsCountName "tf.TPUExecute"
        (rewriteSingleResult ext tda cb parent pre lf post).block
      = opsCountName "tf.TPUExecute" (pre ++ post) + 1 ∧
    (∃ ew, (rewriteSingleResult ext tda cb parent pre lf post).newOps.getLast?
        = some ew ∧
      ew.resultTypes = lf.resultTypes ∧
      (∃ exec, ew.firstInnerOp = some exec ∧ exec.name = "tf.TPUExecute" ∧
        exec.resultTypes = lf.resultTypes) ∧
      (rewriteSingleResult ext tda cb parent pre lf post).pre
        = pre.map (Op.mapOperands (fun v =>
            replaceResultUsesSubst lf.opId ew.opId lf.numResults
              (compilationResultSubst (compilationResultIds (pre ++ lf :: post))
                cb.compileLaunch.opId v))) ∧
      (rewriteSingleResult ext tda cb parent pre lf post).post
        = post.map (Op.mapOperands (fun v =>
            replaceResultUsesSubst lf.opId ew.opId lf.numResults
              (compilationResultSubst (compilationResultIds (pre ++ lf :: post))
                cb.compileLaunch.opId v))) ∧
      (∀ i, i < lf.numResults → ∀ ty,
        opsUsesCount (Value.res lf.opId i ty)
          ((rewriteSingleResult ext tda cb parent pre lf post).pre
            ++ (rewriteSingleResult ext tda cb parent pre lf post).post) = 0) ∧
      (∀ i, i < lf.numResults → ∀ ty,
        opsUsesCount (Value.res ew.opId i ty)
          ((rewriteSingleResult ext tda cb parent pre lf post).pre
            ++ (rewriteSingleResult ext tda cb parent pre lf post).post)
          = opsUsesCount (Value.res lf.opId i ty) (pre ++ post))) ∧
    opsContainsId lf.opId (rewriteSingleResult ext tda cb parent pre lf post).block
      = false := by
  obtain ⟨m, attrs2, hm, hshape, hclaunch, hcbnid⟩ :=
    BuildCompileOp_ok_shape ext dbg fuel mod lf 1 1 tda.compilation_device
      tda.xla_device_assignment nid cb hcb
  have hnum : numReplicasOf parent = 1 := by simp [numReplicasOf, hrep]
  have hrw : Rewrite ext dbg fuel mod devices nid parent pre lf post =
      .ok (rewriteSingleResult ext tda cb parent pre lf post) :=
    Rewrite_ok_single ext dbg fuel mod devices nid parent pre lf post c tda cb
      hmarker hncpr (by rw [hnum]; exact hres) (by rw [hnum]; exact hcb)
  have hlfmem : lf ∈ pre ++ lf :: post := by simp
  have hlf_lt : lf.opId < nid :=
    Op.opId_lt_of_boundedBy (List.all_eq_true.mp hbound lf hlfmem)
  have hcid : cb.compileLaunch.opId = nid + cb.shapeOps.length + 1 := by
    rw [hclaunch]
    rfl
  have hcr_lt := compilationResultIds_lt (pre ++ lf :: post) nid hbound
  have hbpre : pre.all (Op.boundedBy nid) = true := by
    rw [List.all_eq_true] at hbound ⊢
    exact fun o ho => hbound o (by simp [ho])
  have hbpost : post.all (Op.boundedBy nid) = true := by
    rw [List.all_eq_true] at hbound ⊢
    exact fun o ho => hbound o (by simp [ho])
  have hlfnot : lf.opId ∉ compilationResultIds (pre ++ lf :: post) := by
    intro hin
    unfold compilationResultIds at hin
    obtain ⟨o, hom, heq⟩ := List.mem_filterMap.mp hin
    by_cases hnm : o.name = "tf.TPUCompilationResult"
    · rw [if_pos hnm] at heq
      injection heq with hoid
      rcases List.mem_append.mp hom with homp | homc
      · have := opsContainsId_of_mem (List.mem_append_left post homp)
        rw [hoid] at this
        rw [this] at hpreid
        cases hpreid
      · rcases List.mem_cons.mp homc with rfl | homp2
        · rw [hname] at hnm
          exact absurd hnm (by decide)
        · have := opsContainsId_of_mem (List.mem_append_right pre homp2)
          rw [hoid] at this
          rw [this] at hpreid
          cases hpreid
    · rw [if_neg hnm] at heq
      cases heq
  -- facts about the two substitutions
  have hwid_ne : cb.nid + 4 ≠ lf.opId := by omega
  have hwid_ge : nid ≤ cb.nid + 4 := by omega
  have hcid_ne : cb.compileLaunch.opId ≠ lf.opId := by omega
  have hwidnotin : cb.nid + 4 ∉ compilationResultIds (pre ++ lf :: post) := by
    intro hin
    have := hcr_lt _ hin
    omega
  refine ⟨hrw, ?_, ?_, ?_, ?_, ?_⟩
  rotate_left 3
  -- the execute-wrapper conclusions
  · simp only [rewriteSingleResult, AssignDevicesToReplicatedExecute, hrep]
    refine ⟨_, getLast?_append3_map _ _ _ _ _, ?_, ?_, ?_, ?_, ?_, ?_⟩
    · rw [mapOperands_resultTypes]
      show (Op.mapOperands (compilationResultSubst
        (compilationResultIds (pre ++ lf :: post)) cb.compileLaunch.opId)
        lf).resultTypes = lf.resultTypes
      rw [mapOperands_resultTypes]
    · rw [mapOperands_firstInnerOp]
      refine ⟨_, rfl, ?_, ?_⟩
      · rw [mapOperands_name]
        rfl
      · rw [mapOperands_resultTypes]
        show (Op.mapOperands (compilationResultSubst
          (compilationResultIds (pre ++ lf :: post)) cb.compileLaunch.opId)
          lf).resultTypes = lf.resultTypes
        rw [mapOperands_resultTypes]
    · rw [map_mapOperands_comp]
      apply List.map_congr_left
      intro o _
      congr 1
    · rw [map_mapOperands_comp]
      apply List.map_congr_left
      intro o _
      congr 1
    · intro i hik ty
      rw [opsUsesCount_append, map_mapOperands_comp, map_mapOperands_comp]
      rw [opsUsesCount_map_zero _ _ (fun u =>
        replaceResultUsesSubst_ne_old lf.opId (cb.nid + 4) lf.numResults i ty
          hwid_ne hik _)]
      rw [opsUsesCount_map_zero _ _ (fun u =>
        replaceResultUsesSubst_ne_old lf.opId (cb.nid + 4) lf.numResults i ty
          hwid_ne hik _)]
    · intro i hik ty
      rw [mapOperands_opId]
      show opsUsesCount (Value.res (cb.nid + 4) i ty) _ = _
      have hw : replaceResultUsesSubst lf.opId (cb.nid + 4) lf.numResults
          (compilationResultSubst (compilationResultIds (pre ++ lf :: post))
            cb.compileLaunch.opId (Value.res lf.opId i ty))
          = Value.res (cb.nid + 4) i ty := by
        rw [compilationResultSubst_ne _ _ _ _ _ hlfnot,
          replaceResultUsesSubst_res, if_pos ⟨rfl, hik⟩]
      have hv : replaceResultUsesSubst lf.opId (cb.nid + 4) lf.numResults
          (compilationResultSubst (compilationResultIds (pre ++ lf :: post))
            cb.compileLaunch.opId (Value.res (cb.nid + 4) i ty))
          = Value.res (cb.nid + 4) i ty := by
        rw [compilationResultSubst_ne _ _ _ _ _ hwidnotin,
          replaceResultUsesSubst_res, if_neg (fun hc => hwid_ne hc.1)]
      have hwv : (Value.res lf.opId i ty) ≠ (Value.res (cb.nid + 4) i ty) := by
        intro hcon
        injection hcon with h1 h2 h3
        omega
      have huniq : ∀ u,
          replaceResultUsesSubst lf.opId (cb.nid + 4) lf.numResults
            (compilationResultSubst (compilationResultIds (pre ++ lf :: post))
              cb.compileLaunch.opId u)
            = Value.res (cb.nid + 4) i ty →
          u = Value.res lf.opId i ty ∨ u = Value.res (cb.nid + 4) i ty := by
        intro u heq
        rcases compilationResultSubst_out (compilationResultIds (pre ++ lf :: post))
            cb.compileLaunch.opId u with hu | ⟨ty2, hu⟩
        · rw [hu] at heq
          cases u with
          | arg n2 ty3 => exact absurd heq (by simp [replaceResultUsesSubst])
          | res a j ty3 =>
            rw [replaceResultUsesSubst_res] at heq
            by_cases hc : a = lf.opId ∧ j < lf.numResults
            · rw [if_pos hc] at heq
              injection heq with h1 h2 h3
              subst h2
              subst h3
              left
              rw [hc.1]
            · rw [if_neg hc] at heq
              right
              exact heq
        · rw [hu] at heq
          rw [replaceResultUsesSubst_res, if_neg (fun hc => hcid_ne hc.1)] at heq
          injection heq with h1 h2 h3
          omega
      rw [opsUsesCount_append, map_mapOperands_comp, map_mapOperands_comp]
      rw [opsUsesCount_map_pair (Value.res (cb.nid + 4) i ty)
          (Value.res lf.opId i ty)
          (fun u => replaceResultUsesSubst lf.opId (cb.nid + 4) lf.numResults
            (compilationResultSubst (compilationResultIds (pre ++ lf :: post))
              cb.compileLaunch.opId u))
          hw hv hwv huniq,
        opsUsesCount_map_pair (Value.res (cb.nid + 4) i ty)
          (Value.res lf.opId i ty)
          (fun u => replaceResultUsesSubst lf.opId (cb.nid + 4) lf.numResults
            (compilationResultSubst (compilationResultIds (pre ++ lf :: post))
              cb.compileLaunch.opId u))
          hw hv hwv huniq]
      rw [opsUsesCount_zero_of_all_bounded nid (cb.nid + 4) hwid_ge i ty pre hbpre,
        opsUsesCount_zero_of_all_bounded nid (cb.nid + 4) hwid_ge i ty post hbpost,
        opsUsesCount_append]
      omega
  -- the erasure conclusion
  · simp only [RewriteOk.block, rewriteSingleResult,
      AssignDevicesToReplicatedExecute, hrep]
    have h1 : opsContainsId lf.opId (cb.shapeOps) = false := by
      rw [hshape]
      exact opsContainsId_buildShapeOps nid m lf lf.opId hlf_lt
    have h2 : Op.containsId lf.opId cb.compileLaunch = false := by
      rw [hclaunch]
      exact containsId_WrapOpInLaunch_leaf _ _ _ _ _ _ _ _
        (by omega) (by omega) (by omega)
    have h3 : Op.containsId lf.opId
        ((BuildTPUCompileSucceededAssertOp cb.nid
          (Op.mapOperands (compilationResultSubst
            (compilationResultIds (pre ++ lf :: post)) cb.compileLaunch.opId)
            cb.compileLaunch) tda.compilation_device).1) = false :=
      containsId_WrapOpInLaunch_leaf _ _ _ _ _ _ _ _
        (by omega) (by omega) (by omega)
    have h4 : Op.containsId lf.opId
        ((WrapOpInLaunch (cb.nid + 4)
          (BuildExecuteOp (cb.nid + 3)
            ((Op.mapOperands (compilationResultSubst
              (compilationResultIds (pre ++ lf :: post)) cb.compileLaunch.opId)
              lf).operands ++
              [(Op.mapOperands (compilationResultSubst
                (compilationResultIds (pre ++ lf :: post)) cb.compileLaunch.opId)
                cb.compileLaunch).resultVal 1])
            (Op.mapOperands (compilationResultSubst
              (compilationResultIds (pre ++ lf :: post)) cb.compileLaunch.opId)
              lf))
          ((tda.execution_devices.headD []).headD "")).1) = false :=
      containsId_WrapOpInLaunch_leaf _ _ _ _ _ _ _ _
        (by omega) (by omega) (by omega)
    rw [opsContainsId_append] at hpreid
    rcases Bool.or_eq_false_iff.mp hpreid with ⟨hp1, hp2⟩
    simp only [opsContainsId_append, opsContainsId_map_mapOperands,
      opsContainsId_cons, opsContainsId_nil, Op.containsId_mapOperands]
    rw [h1, h2, h3, h4, hp1, hp2]
    simp
  -- the three creation counts
  all_goals {
    simp only [RewriteOk.block, rewriteSingleResult,
      AssignDevicesToReplicatedExecute, hrep]
    simp only [opsCountName_append, opsCountName_cons, opsCountName_nil,
      opsCountName_map_mapOperands, Op.countName_mapOperands]
    rw [hshape, hclaunch]
    rw [BuildAssert_eq, BuildExecuteOp_eq]
    simp only [countName_WrapOpInLaunch_leaf, opsCountName_buildShapeOps]
    simp
    try omega
  }

/-- Witness for C2 on the concrete one-operand one-result launch_func lf1
with one downstream consumer of its result: the rewrite succeeds, exactly
one execute node is created, and the launch_func is gone from the block. -/
theorem C2_single_core_rewrite_witness :
    ∃ cb, BuildCompileOp ext0 false 9 mod0 (lf1 1) 1 1 "/CPU:0" none 10 = .ok cb ∧
      Rewrite ext0 false 9 mod0 [] 10 none [] (lf1 1) [useOp] =
        .ok (rewriteSingleResult ext0 tdaD cb none [] (lf1 1) [useOp]) ∧
      opsCountName "tf.TPUExecute"
          (rewriteSingleResult ext0 tdaD cb none [] (lf1 1) [useOp]).block
        = opsCountName "tf.TPUExecute" ([] ++ [useOp]) + 1 ∧
      opsContainsId (lf1 1).opId
          (rewriteSingleResult ext0 tdaD cb none [] (lf1 1) [useOp]).block
        = false := by
  refine ⟨_, rfl, ?_⟩
  have h := C2_single_core_rewrite ext0 false 9 mod0 [] 10 none [] [useOp]
    (lf1 1) "cluster" tdaD _ rfl rfl rfl rfl rfl rfl rfl (by decide) (by decide)
    (by decide)
  exact ⟨h.1, h.2.2.2.1, h.2.2.2.2.2⟩

mutual
/-- Cleaning a name below an operation leaves only the root's own
possible occurrence of it. -/
theorem Op.countName_eraseAllName (s : String) : ∀ (o : Op),
    Op.countName s (Op.eraseAllName s o) = (if o.name = s then 1 else 0)
  | .mk i n ops tys a rs => by
    show (if n = s then 1 else 0) + Regions.countName s (Regions.eraseAllName s rs)
      = if n = s then 1 else 0
    rw [Regions.countName_eraseAllName_regions s rs, Nat.add_zero]

theorem Regions.countName_eraseAllName_regions (s : String) : ∀ (rs : Regions),
    Regions.countName s (Regions.eraseAllName s rs) = 0
  | .nil => rfl
  | .cons r rs => by
    simp only [Regions.eraseAllName, Regions.countName,
      Ops.countName_eraseAllName_ops s r, Regions.countName_eraseAllName_regions s rs]

theorem Ops.countName_eraseAllName_ops (s : String) : ∀ (os : Ops),
    Ops.countName s (Ops.eraseAllName s os) = 0
  | .nil => rfl
  | .cons o os => by
    by_cases h : o.name = s
    · simp only [Ops.eraseAllName, if_pos h, Ops.countName_eraseAllName_ops s os]
    · simp only [Ops.eraseAllName, if_neg h, Ops.countName,
        Op.countName_eraseAllName s o, Ops.countName_eraseAllName_ops s os, if_neg h]
end

/-- opsCountName over the list view agrees with Ops.countName. -/
theorem opsCountName_toList (s : String) : ∀ (os : Ops),
    opsCountName s os.toList = Ops.countName s os
  | .nil => rfl
  | .cons o os => by
    show opsCountName s (o :: Ops.toList os) = _
    rw [opsCountName_cons, opsCountName_toList s os]
    rfl

/-- The placeholder sweep leaves no tf.TPUCompilationResult operation at
any depth. -/
theorem eraseCompilationResultOps_count (l : List Op) :
    opsCountName "tf.TPUCompilationResult" (eraseCompilationResultOps l) = 0 := by
  unfold eraseCompilationResultOps
  rw [opsCountName_toList, Ops.countName_eraseAllName_ops]

/-- The placeholder redirect on the output of a registered placeholder. -/
theorem compilationResultSubst_mem (crIds : List Nat) (cid a : Nat) (ty : MType)
    (ha : a ∈ crIds) :
    compilationResultSubst crIds cid (Value.res a 0 ty) = Value.res cid 0 ty := by
  simp [compilationResultSubst, ha]

/-- An operation of the block named tf.TPUCompilationResult contributes
its id to the placeholder ids, whatever its attributes. -/
theorem mem_compilationResultIds_of_name {blockOps : List Op} {o : Op}
    (hmem : o ∈ blockOps) (hname : o.name = "tf.TPUCompilationResult") :
    o.opId ∈ compilationResultIds blockOps := by
  unfold compilationResultIds
  exact List.mem_filterMap.mpr ⟨o, hmem, by rw [if_pos hname]⟩

/-- The composite substitution of the single-core rewrite never emits a
use of a placeholder output: direct placeholder uses are redirected to
the compile status result and both replacement ids differ from the
placeholder id. -/
theorem subst_output_ne_placeholder (crIds : List Nat) (cid oldId w k pid : Nat)
    (ty : MType) (hpin : pid ∈ crIds) (hcid : cid ≠ pid) (hw : w ≠ pid) (u : Value) :
    replaceResultUsesSubst oldId w k (compilationResultSubst crIds cid u)
      ≠ Value.res pid 0 ty := by
  intro heq
  rcases compilationResultSubst_out crIds cid u with hu | ⟨ty2, hu⟩
  · rw [hu] at heq
    cases u with
    | arg n2 ty3 =>
      rw [show replaceResultUsesSubst oldId w k (Value.arg n2 ty3)
        = Value.arg n2 ty3 from rfl] at heq
      cases heq
    | res a j ty3 =>
      rw [replaceResultUsesSubst_res] at heq
      by_cases hc : a = oldId ∧ j < k
      · rw [if_pos hc] at heq
        injection heq with h1 h2 h3
        exact hw h1
      · rw [if_neg hc] at heq
        injection heq with h1 h2 h3
        rw [h1, h2, h3] at hu
        rw [compilationResultSubst_mem crIds cid pid ty hpin] at hu
        injection hu with h4 h5 h6
        exact hcid h4
  · rw [hu] at heq
    rw [replaceResultUsesSubst_res] at heq
    by_cases hc : cid = oldId ∧ 0 < k
    · rw [if_pos hc] at heq
      injection heq with h1 h2 h3
      exact hw h1
    · rw [if_neg hc] at heq
      injection heq with h1 h2 h3
      exact hcid h1

/-- The rewrite takes the single-execute path whenever the partition
count is not above 1. -/
theorem Rewrite_ok_not_parallel (ext : Externals) (dbg : Bool) (fuel : Nat)
    (mod : ModuleM) (devices : List String) (nid : Nat) (parent : Option Op)
    (pre : List Op) (lf : Op) (post : List Op) (c : String) (ncpr : Int)
    (tda : TPUDeviceAssignment) (cb : CompileBuildOk)
    (hmarker : lf.getStrAttr "_tpu_replicate" = some c)
    (hncpr : lf.getIntAttr "num_cores_per_replica" = some ncpr)
    (hle : ¬ 1 < ncpr)
    (hres : ext.getTPUCompilationAndExecutionDevices devices
      (numReplicasOf parent) ncpr = .ok tda)
    (hcb : BuildCompileOp ext dbg fuel mod lf (numReplicasOf parent) ncpr
      tda.compilation_device tda.xla_device_assignment nid = .ok cb) :
    Rewrite ext dbg fuel mod devices nid parent pre lf post =
      .ok (rewriteSingleResult ext tda cb parent pre lf post) := by
  unfold Rewrite
  rw [hmarker]
  simp only []
  rw [hncpr]
  simp only []
  rw [hres]
  simp only []
  rw [hcb]
  simp only []
  rw [if_neg hle]

/-- C10: while rewriting any marked launch_func — for every partition
count and with or without an enclosing replicate parent — every
tf.TPUCompilationResult placeholder in the block, with no condition on
its attributes and in particular none relating its replication-marker
value to the launch_func's, has every use of its output redirected to
the compile launch's status result: the placeholder redirect maps the
placeholder's output to the compile status result, the rewritten
surrounding operations are the originals mapped by the redirect followed
by the branch's fresh-id result replacement, no use of the placeholder's
output remains in them; and a fully successful pass leaves no
tf.TPUCompilationResult operation at any depth of the resulting module
body. -/
theorem C10_placeholder_redirect_and_sweep (ext : Externals) (dbg : Bool)
    (fuel : Nat) (mod : ModuleM) (devices : List String) (nid : Nat)
    (parent : Option Op) (pre post : List Op) (lf ph : Op) (c : String)
    (ncpr : Int) (tda : TPUDeviceAssignment) (cb : CompileBuildOk)
    (hmarker : lf.getStrAttr "_tpu_replicate" = some c)
    (hncpr : lf.getIntAttr "num_cores_per_replica" = some ncpr)
    (hres : ext.getTPUCompilationAndExecutionDevices devices
      (numReplicasOf parent) ncpr = .ok tda)
    (hcb : BuildCompileOp ext dbg fuel mod lf (numReplicasOf parent) ncpr
      tda.compilation_device tda.xla_device_assignment nid = .ok cb)
    (hph : ph ∈ pre ++ post)
    (hphname : ph.name = "tf.TPUCompilationResult")
    (hbound : (pre ++ lf :: post).all (Op.boundedBy nid) = true) :
    (∀ ty, compilationResultSubst (compilationResultIds (pre ++ lf :: post))
        cb.compileLaunch.opId (Value.res ph.opId 0 ty)
      = Value.res cb.compileLaunch.opId 0 ty) ∧
    (∃ r w k,
      Rewrite ext dbg fuel mod devices nid parent pre lf post = .ok r ∧
      nid ≤ w ∧
      r.pre = pre.map (Op.mapOperands (fun v =>
        replaceResultUsesSubst lf.opId w k
          (compilationResultSubst (compilationResultIds (pre ++ lf :: post))
            cb.compileLaunch.opId v))) ∧
      r.post = post.map (Op.mapOperands (fun v =>
        replaceResultUsesSubst lf.opId w k
          (compilationResultSubst (compilationResultIds (pre ++ lf :: post))
            cb.compileLaunch.opId v))) ∧
      (∀ ty, replaceResultUsesSubst lf.opId w k
          (compilationResultSubst (compilationResultIds (pre ++ lf :: post))
            cb.compileLaunch.opId (Value.res ph.opId 0 ty))
        = Value.res cb.compileLaunch.opId 0 ty) ∧
      (∀ ty, opsUsesCount (Value.res ph.opId 0 ty) (r.pre ++ r.post) = 0)) ∧
    (∀ fuel2 nid2 body l,
      runOnModule ext dbg mod fuel2 nid2 body = some l →
      opsCountName "tf.TPUCompilationResult" l = 0) := by
  obtain ⟨m, attrs2, hm, hshape, hclaunch, hcbnid⟩ :=
    BuildCompileOp_ok_shape ext dbg fuel mod lf (numReplicasOf parent) ncpr
      tda.compilation_device tda.xla_device_assignment nid cb hcb
  have hphb : ph ∈ pre ++ lf :: post := by
    rcases List.mem_append.mp hph with h | h
    · exact List.mem_append_left _ h
    · exact List.mem_append_right _ (List.mem_cons_of_mem lf h)
  have hph_lt : ph.opId < nid :=
    Op.opId_lt_of_boundedBy (List.all_eq_true.mp hbound ph hphb)
  have hlf_lt : lf.opId < nid :=
    Op.opId_lt_of_boundedBy (List.all_eq_true.mp hbound lf (by simp))
  have hcid : cb.compileLaunch.opId = nid + cb.shapeOps.length + 1 := by
    rw [hclaunch]
    rfl
  have hpin : ph.opId ∈ compilationResultIds (pre ++ lf :: post) :=
    mem_compilationResultIds_of_name hphb hphname
  have hcid_ne : cb.compileLaunch.opId ≠ ph.opId := by omega
  have hclf_ne : cb.compileLaunch.opId ≠ lf.opId := by omega
  refine ⟨?_, ?_, ?_⟩
  · intro ty
    rw [compilationResultSubst_mem _ _ _ _ hpin]
  · by_cases hgt : 1 < ncpr
    · -- the parallel-execute path
      have hrw := Rewrite_ok_parallel ext dbg fuel mod devices nid parent pre lf
        post c ncpr tda cb hmarker hncpr hgt hres hcb
      have hpeid : (BuildParallelExecuteOp ext (cb.nid + 3) ncpr.toNat
          (Op.mapOperands (compilationResultSubst
            (compilationResultIds (pre ++ lf :: post)) cb.compileLaunch.opId)
            cb.compileLaunch)
          (Op.mapOperands (compilationResultSubst
            (compilationResultIds (pre ++ lf :: post)) cb.compileLaunch.opId)
            lf)).1.opId = cb.nid + 3 := rfl
      have hwne : (BuildParallelExecuteOp ext (cb.nid + 3) ncpr.toNat
          (Op.mapOperands (compilationResultSubst
            (compilationResultIds (pre ++ lf :: post)) cb.compileLaunch.opId)
            cb.compileLaunch)
          (Op.mapOperands (compilationResultSubst
            (compilationResultIds (pre ++ lf :: post)) cb.compileLaunch.opId)
            lf)).1.opId ≠ ph.opId := by
        rw [hpeid]
        omega
      refine ⟨rewriteParallelResult ext tda cb parent pre lf post ncpr,
        (BuildParallelExecuteOp ext (cb.nid + 3) ncpr.toNat
          (Op.mapOperands (compilationResultSubst
            (compilationResultIds (pre ++ lf :: post)) cb.compileLaunch.opId)
            cb.compileLaunch)
          (Op.mapOperands (compilationResultSubst
            (compilationResultIds (pre ++ lf :: post)) cb.compileLaunch.opId)
            lf)).1.opId,
        min (Op.mapOperands (compilationResultSubst
            (compilationResultIds (pre ++ lf :: post)) cb.compileLaunch.opId)
            lf).numResults
          (BuildParallelExecuteOp ext (cb.nid + 3) ncpr.toNat
            (Op.mapOperands (compilationResultSubst
              (compilationResultIds (pre ++ lf :: post)) cb.compileLaunch.opId)
              cb.compileLaunch)
            (Op.mapOperands (compilationResultSubst
              (compilationResultIds (pre ++ lf :: post)) cb.compileLaunch.opId)
              lf)).1.numResults,
        hrw, by rw [hpeid]; omega, ?_, ?_, ?_, ?_⟩
      · simp only [rewriteParallelResult, RemapOutputsOfParallelExecute]
        rw [map_mapOperands_comp]
        simp only [mapOperands_opId]
      · simp only [rewriteParallelResult, RemapOutputsOfParallelExecute]
        rw [map_mapOperands_comp]
        simp only [mapOperands_opId]
      · intro ty
        rw [compilationResultSubst_mem _ _ _ _ hpin, replaceResultUsesSubst_res,
          if_neg (fun hc => hclf_ne hc.1)]
      · intro ty
        simp only [rewriteParallelResult, RemapOutputsOfParallelExecute]
        rw [opsUsesCount_append, map_mapOperands_comp, map_mapOperands_comp]
        simp only [mapOperands_opId]
        rw [opsUsesCount_map_zero _ _ (fun u =>
          subst_output_ne_placeholder _ _ _ _ _ _ ty hpin hcid_ne hwne u)]
        rw [opsUsesCount_map_zero _ _ (fun u =>
          subst_output_ne_placeholder _ _ _ _ _ _ ty hpin hcid_ne hwne u)]
    · -- the single-execute path (with or without a replicate parent)
      have hrw := Rewrite_ok_not_parallel ext dbg fuel mod devices nid parent pre
        lf post c ncpr tda cb hmarker hncpr hgt hres hcb
      have hwid_ne : cb.nid + 4 ≠ ph.opId := by omega
      refine ⟨rewriteSingleResult ext tda cb parent pre lf post,
        cb.nid + 4, lf.numResults, hrw, by omega, ?_, ?_, ?_, ?_⟩
      · simp only [rewriteSingleResult]
        rw [map_mapOperands_comp]
      · simp only [rewriteSingleResult]
        rw [map_mapOperands_comp]
      · intro ty
        rw [compilationResultSubst_mem _ _ _ _ hpin, replaceResultUsesSubst_res,
          if_neg (fun hc => hclf_ne hc.1)]
      · intro ty
        simp only [rewriteSingleResult]
        rw [opsUsesCount_append, map_mapOperands_comp, map_mapOperands_comp]
        rw [opsUsesCount_map_zero _ _ (fun u =>
          subst_output_ne_placeholder _ _ _ _ _ _ ty hpin hcid_ne hwid_ne u)]
        rw [opsUsesCount_map_zero _ _ (fun u =>
          subst_output_ne_placeholder _ _ _ _ _ _ ty hpin hcid_ne hwid_ne u)]
  · intro fuel2 nid2 body l hrun
    unfold runOnModule at hrun
    cases hd : ext.getDevicesFromOp mod with
    | error e => rw [hd] at hrun; cases hrun
    | ok devs =>
      rw [hd] at hrun
      simp only [] at hrun
      cases hw2 : walkBlockOps ext dbg mod devs fuel2 nid2 none [] body with
      | error e => rw [hw2] at hrun; cases hrun
      | ok t =>
        obtain ⟨body2, p2, n2⟩ := t
        rw [hw2] at hrun
        simp only [] at hrun
        injection hrun with hl
        rw [← hl]
        exact eraseCompilationResultOps_count body2

/-- Witness for C10 on the parallel-execute path: lf1 with partition
count 2, a concrete placeholder carrying the replication-marker value
"other" (different from lf1's cluster), and a concrete consumer of the
placeholder's output: the rewrite succeeds, the neighbors are rewritten
by a substitution redirecting the placeholder output to the compile
status, no use of the placeholder output remains, and a successful pass
leaves no placeholder operations. -/
theorem C10_placeholder_redirect_and_sweep_witness :
    ∃ cb, BuildCompileOp ext0 false 9 mod0 (lf1 2) 1 2 "/CPU:0" none 10 = .ok cb ∧
      ((∀ ty, compilationResultSubst
          (compilationResultIds ([] ++ lf1 2 :: [phD, useCR]))
          cb.compileLaunch.opId (Value.res phD.opId 0 ty)
        = Value.res cb.compileLaunch.opId 0 ty) ∧
      (∃ r w k,
        Rewrite ext0 false 9 mod0 [] 10 none [] (lf1 2) [phD, useCR] = .ok r ∧
        10 ≤ w ∧
        r.pre = List.map (Op.mapOperands (fun v =>
          replaceResultUsesSubst (lf1 2).opId w k
            (compilationResultSubst
              (compilationResultIds ([] ++ lf1 2 :: [phD, useCR]))
              cb.compileLaunch.opId v))) [] ∧
        r.post = List.map (Op.mapOperands (fun v =>
          replaceResultUsesSubst (lf1 2).opId w k
            (compilationResultSubst
              (compilationResultIds ([] ++ lf1 2 :: [phD, useCR]))
              cb.compileLaunch.opId v))) [phD, useCR] ∧
        (∀ ty, replaceResultUsesSubst (lf1 2).opId w k
            (compilationResultSubst
              (compilationResultIds ([] ++ lf1 2 :: [phD, useCR]))
              cb.compileLaunch.opId (Value.res phD.opId 0 ty))
          = Value.res cb.compileLaunch.opId 0 ty) ∧
        (∀ ty, opsUsesCount (Value.res phD.opId 0 ty) (r.pre ++ r.post) = 0)) ∧
      (∀ fuel2 nid2 body l,
        runOnModule ext0 false mod0 fuel2 nid2 body = some l →
        opsCountName "tf.TPUCompilationResult" l = 0)) := by
  refine ⟨_, rfl, ?_⟩
  exact C10_placeholder_redirect_and_sweep ext0 false 9 mod0 [] 10 none []
    [phD, useCR] (lf1 2) phD "cluster" 2 tdaD _ rfl rfl rfl rfl (by simp) rfl
    (by decide)

/-- C1: the claimed parallel-execute shape fails against the code: for
partition count 2 the compile launch exposes exactly 2 results, not
N + 1 = 3, while the parallel-execute does have 2 regions and region 1's
launch-wrapped execute consumes a reference to result 2 of the compile
launch — an index with no corresponding result type, i.e. out of range
(undefined behaviour of getResult in the source). -/
theorem C1_parallel_compile_results_bug :
    ∃ cb, BuildCompileOp ext0 false 9 mod0 (lf1 2) 1 2 "/CPU:0" none 10 = .ok cb ∧
      cb.compileLaunch.numResults = 2 ∧
      cb.compileLaunch.numResults ≠ 2 + 1 ∧
      (BuildParallelExecuteOp ext0 cb.nid 2 cb.compileLaunch
        (lf1 2)).1.regions.toList.length = 2 ∧
      (∃ rs1 launch1 exec1,
        (BuildParallelExecuteOp ext0 cb.nid 2 cb.compileLaunch
          (lf1 2)).1.regions.toList.get? 1 = some rs1 ∧
        rs1.toList.head? = some launch1 ∧
        launch1.name = "tf_device.launch" ∧
        launch1.firstInnerOp = some exec1 ∧
        exec1.name = "tf.TPUExecute" ∧
        exec1.operands.getLast? = some (cb.compileLaunch.resultVal 2) ∧
        cb.compileLaunch.resultVal 2
          = Value.res cb.compileLaunch.opId 2 (MType.tensor none .i1) ∧
        cb.compileLaunch.resultTypes.get? 2 = none) := by
  refine ⟨_, rfl, rfl, by decide, rfl,
    ⟨_, _, _, rfl, rfl, rfl, rfl, rfl, rfl, rfl, rfl⟩⟩

/-- Symbol lookup success returns a member carrying the looked-up name. -/
theorem lookupFunc_some {m : ModuleM} {n : String} {f : FuncM}
    (h : m.lookupFunc n = some f) : f ∈ m.funcs ∧ f.name = n := by
  unfold ModuleM.lookupFunc at h
  have h2 := List.find?_some h
  exact ⟨List.mem_of_find?_eq_some h, by simpa using h2⟩

/-- Symbol lookup failure means no member carries the name. -/
theorem lookupFunc_none {m : ModuleM} {n : String}
    (h : m.lookupFunc n = none) : ∀ d ∈ m.funcs, d.name ≠ n := by
  unfold ModuleM.lookupFunc at h
  intro d hd
  have := List.find?_eq_none.mp h d hd
  simpa using this

/-- Reachable functions are members of the source symbol table. -/
theorem ReachableFrom_mem {src : ModuleM} {entry f : FuncM}
    (hentry : entry ∈ src.funcs) (h : ReachableFrom src entry f) :
    f ∈ src.funcs := by
  induction h with
  | base => exact hentry
  | step h1 h2 ih =>
    obtain ⟨r, hr, hlk⟩ := List.mem_filterMap.mp h2
    exact (lookupFunc_some hlk).1

/-- In a symbol table with pairwise distinct names, the name determines
the function. -/
theorem name_inj {src : ModuleM} (hnodup : (src.funcs.map FuncM.name).Nodup)
    {f g : FuncM} (hf : f ∈ src.funcs) (hg : g ∈ src.funcs)
    (h : f.name = g.name) : f = g :=
  List.inj_on_of_nodup_map hnodup hf hg h

/-- SymbolTable::insert keeps an uncollided name. -/
theorem uniqueSymbolName_not_taken {taken : List String} {base : String}
    (h : base ∉ taken) : uniqueSymbolName taken base = base := by
  unfold uniqueSymbolName
  rw [if_neg h]

/-- Inserting a function whose name is free appends it verbatim. -/
theorem insertFunc_fresh {m : ModuleM} {f : FuncM}
    (h : f.name ∉ m.funcs.map FuncM.name) :
    m.insertFunc f = { m with funcs := m.funcs ++ [f] } := by
  cases f with
  | mk n r p =>
    unfold ModuleM.insertFunc
    rw [uniqueSymbolName_not_taken h]

/-- The destination grows monotonically: occurrence survives insertion. -/
theorem inDest_append {entry : FuncM} {d : ModuleM} {g : FuncM} (f : FuncM)
    (h : inDest entry d g) :
    inDest entry { d with funcs := d.funcs ++ [f] } g := by
  unfold inDest at h ⊢
  by_cases hg : g = entry
  · rw [if_pos hg] at h ⊢
    exact List.mem_append_left _ h
  · rw [if_neg hg] at h ⊢
    exact List.mem_append_left _ h

/-- The work-list loop on the empty work list returns the destination. -/
theorem encapsulateLoop_nil (src : ModuleM) (en : String) (fuel : Nat)
    (d : ModuleM) : encapsulateLoop src en (fuel + 1) [] d = some d := rfl

/-- The work-list loop skips an already cloned function. -/
theorem encapsulateLoop_cons_skip (src : ModuleM) (en : String) (fuel : Nat)
    (w : FuncM) (rest : List FuncM) (d : ModuleM)
    (h : (d.lookupFunc w.name).isSome = true) :
    encapsulateLoop src en (fuel + 1) (w :: rest) d
      = encapsulateLoop src en fuel rest d := by
  conv_lhs => unfold encapsulateLoop
  rw [if_pos h]

/-- The work-list loop clones an unseen function, pushing its resolved
references. -/
theorem encapsulateLoop_cons_clone (src : ModuleM) (en : String) (fuel : Nat)
    (w : FuncM) (rest : List FuncM) (d : ModuleM)
    (h : (d.lookupFunc w.name).isSome = false) :
    encapsulateLoop src en (fuel + 1) (w :: rest) d
      = encapsulateLoop src en fuel
          ((w.refs.filterMap src.lookupFunc).reverse ++ rest)
          (d.insertFunc (if w.name = en then { w with name := "main" } else w)) := by
  conv_lhs => unfold encapsulateLoop
  rw [if_neg (by simp [h])]

/-- The work-list loop never touches the destination module's
attributes. -/
theorem encapsulateLoop_attrs (src : ModuleM) (en : String) :
    ∀ (fuel : Nat) (ws : List FuncM) (d d' : ModuleM),
      encapsulateLoop src en fuel ws d = some d' → d'.attrs = d.attrs := by
  intro fuel
  induction fuel with
  | zero => intro ws d d' h; cases h
  | succ fuel ih =>
    intro ws d d' h
    cases ws with
    | nil =>
      rw [encapsulateLoop_nil] at h
      injection h with h2
      rw [← h2]
    | cons w rest =>
      cases hlk : (d.lookupFunc w.name).isSome with
      | true =>
        rw [encapsulateLoop_cons_skip src en fuel w rest d hlk] at h
        exact ih rest d d' h
      | false =>
        rw [encapsulateLoop_cons_clone src en fuel w rest d hlk] at h
        rw [ih _ _ _ h]
        unfold ModuleM.insertFunc
        rfl

/-- C4 counterexample: on the two-function reference cycle A <-> B with
entry A, the extractor emits the entry twice: the destination holds three
functions named main, B and main_0, two of which are clones of the entry,
although only two functions are reachable — some reachable function
appears more than once, refuting the each-exactly-once claim. -/
theorem C4_closure_counterexample :
    ∃ dest txt,
      EncapsulateFuncAndSerialize ext0 10 modAB funcA = .ok (dest, txt) ∧
      dest.funcs.map FuncM.name = ["main", "B", "main_0"] ∧
      (dest.funcs.filter (fun f => f.payload = funcA.payload)).length = 2 ∧
      modAB.funcs.length = 2 := by
  refine ⟨_, _, rfl, by decide, by decide, rfl⟩

/-- The closure invariant of the work-list loop: starting from a work
list of reachable functions scheduling the entry at most once, and a
destination holding only correctly renamed clones of reachable functions
whose resolved references are present or scheduled, a terminating run
yields a destination with pairwise distinct names containing exactly
renamed clones of reachable functions, every reachable function
included. -/
theorem encapsulateLoop_closure (src : ModuleM) (entry : FuncM)
    (hnodup : (src.funcs.map FuncM.name).Nodup)
    (hentry : entry ∈ src.funcs)
    (hnomain : ∀ f, ReachableFrom src entry f → f.name ≠ "main")
    (hnoback : ∀ f, ReachableFrom src entry f → entry.name ∉ f.refs) :
    ∀ (fuel : Nat) (ws : List FuncM) (d d' : ModuleM),
      (∀ w ∈ ws, ReachableFrom src entry w) →
      ws.count entry ≤ 1 →
      (mainClone entry ∈ d.funcs → entry ∉ ws) →
      (d.funcs.map FuncM.name).Nodup →
      (∀ x ∈ d.funcs, x = mainClone entry ∨
        (ReachableFrom src entry x ∧ x ≠ entry)) →
      (∀ x ∈ d.funcs, ∀ g ∈ x.refs.filterMap src.lookupFunc,
        inDest entry d g ∨ g ∈ ws) →
      (inDest entry d entry ∨ entry ∈ ws) →
      encapsulateLoop src entry.name fuel ws d = some d' →
      ((d'.funcs.map FuncM.name).Nodup ∧
       (∀ x ∈ d'.funcs, x = mainClone entry ∨
         (ReachableFrom src entry x ∧ x ≠ entry)) ∧
       (∀ g, ReachableFrom src entry g → inDest entry d' g)) := by
  intro fuel
  induction fuel with
  | zero => intro ws d d' _ _ _ _ _ _ _ h; cases h
  | succ fuel ih =>
    intro ws d d' hws hcnt hbE ha hb hc hd h
    cases ws with
    | nil =>
      rw [encapsulateLoop_nil] at h
      injection h with h2
      subst h2
      refine ⟨ha, hb, ?_⟩
      intro g hg
      induction hg with
      | base =>
        rcases hd with h1 | h1
        · exact h1
        · exact absurd h1 (by simp)
      | step h1 h2 ih2 =>
        rename_i f g
        by_cases hfe : f = entry
        · rw [hfe] at ih2 h2
          have hmem : mainClone entry ∈ d.funcs := by
            unfold inDest at ih2
            rwa [if_pos rfl] at ih2
          rcases hc (mainClone entry) hmem g h2 with h3 | h3
          · exact h3
          · exact absurd h3 (by simp)
        · have hmem : f ∈ d.funcs := by
            unfold inDest at ih2
            rwa [if_neg hfe] at ih2
          rcases hc f hmem g h2 with h3 | h3
          · exact h3
          · exact absurd h3 (by simp)
    | cons w rest =>
      have hwreach := hws w (List.mem_cons_self w rest)
      have hwmem : w ∈ src.funcs := ReachableFrom_mem hentry hwreach
      cases hlk : d.lookupFunc w.name with
      | some x =>
        rw [encapsulateLoop_cons_skip src entry.name fuel w rest d
          (by rw [hlk]; rfl)] at h
        obtain ⟨hxmem, hxname⟩ := lookupFunc_some hlk
        have hxw : x = w := by
          rcases hb x hxmem with h1 | ⟨h1, h2⟩
          · exfalso
            apply hnomain w hwreach
            rw [← hxname, h1]
            rfl
          · exact name_inj hnodup (ReachableFrom_mem hentry h1) hwmem hxname
        subst hxw
        have hwnE : x ≠ entry := by
          rcases hb x hxmem with h1 | ⟨_, h2⟩
          · exfalso
            apply hnomain x hwreach
            rw [h1]
            rfl
          · exact h2
        have hws2 : ∀ u ∈ rest, ReachableFrom src entry u :=
          fun u hu => hws u (List.mem_cons_of_mem x hu)
        have hcnt2 : rest.count entry ≤ 1 := by
          have h2 := hcnt
          rw [List.count_cons] at h2
          omega
        have hbE2 : mainClone entry ∈ d.funcs → entry ∉ rest :=
          fun hm hin => hbE hm (List.mem_cons_of_mem x hin)
        have hc2 : ∀ y ∈ d.funcs, ∀ g ∈ y.refs.filterMap src.lookupFunc,
            inDest entry d g ∨ g ∈ rest := by
          intro y hy g hg
          rcases hc y hy g hg with h1 | h1
          · exact Or.inl h1
          · rcases List.mem_cons.mp h1 with rfl | h2
            · left
              unfold inDest
              rw [if_neg hwnE]
              exact hxmem
            · exact Or.inr h2
        have hd2 : inDest entry d entry ∨ entry ∈ rest := by
          rcases hd with h1 | h1
          · exact Or.inl h1
          · rcases List.mem_cons.mp h1 with h2 | h2
            · exact absurd h2.symm hwnE
            · exact Or.inr h2
        exact ih rest d d' hws2 hcnt2 hbE2 ha hb hc2 hd2 h
      | none =>
        rw [encapsulateLoop_cons_clone src entry.name fuel w rest d
          (by rw [hlk]; rfl)] at h
        by_cases hwn : w.name = entry.name
        · have hwE : w = entry := name_inj hnodup hwmem hentry hwn
          subst hwE
          rw [if_pos rfl] at h
          rw [show ({ w with name := "main" } : FuncM) = mainClone w from rfl] at h
          have hfresh : (mainClone w).name ∉ d.funcs.map FuncM.name := by
            intro hin
            obtain ⟨y, hy, hyn⟩ := List.mem_map.mp hin
            rcases hb y hy with h1 | ⟨h1, h2⟩
            · exact hbE (h1 ▸ hy) (List.mem_cons_self _ _)
            · exact hnomain y h1 hyn
          rw [insertFunc_fresh hfresh] at h
          have hEp : w ∉ (w.refs.filterMap src.lookupFunc).reverse := by
            intro hin
            rw [List.mem_reverse] at hin
            obtain ⟨r, hr, hlk2⟩ := List.mem_filterMap.mp hin
            rw [← (lookupFunc_some hlk2).2] at hr
            exact hnoback w ReachableFrom.base hr
          have hErest : w ∉ rest := by
            have h2 := hcnt
            rw [List.count_cons_self] at h2
            have h0 : rest.count w = 0 := by omega
            exact List.count_eq_zero.mp h0
          have hws2 : ∀ u ∈ (w.refs.filterMap src.lookupFunc).reverse ++ rest,
              ReachableFrom src w u := by
            intro u hu
            rcases List.mem_append.mp hu with h1 | h1
            · rw [List.mem_reverse] at h1
              exact ReachableFrom.step ReachableFrom.base h1
            · exact hws u (List.mem_cons_of_mem w h1)
          have hcnt2 : ((w.refs.filterMap src.lookupFunc).reverse ++ rest).count w
              ≤ 1 := by
            rw [List.count_append, List.count_eq_zero.mpr hEp,
              List.count_eq_zero.mpr hErest]
            omega
          have hbE2 : mainClone w ∈ d.funcs ++ [mainClone w] →
              w ∉ (w.refs.filterMap src.lookupFunc).reverse ++ rest := by
            intro _ hin
            rcases List.mem_append.mp hin with h1 | h1
            · exact hEp h1
            · exact hErest h1
          have ha2 : ((d.funcs ++ [mainClone w]).map FuncM.name).Nodup := by
            rw [List.map_append]
            refine List.Nodup.append ha (List.nodup_singleton _) ?_
            intro a ha1 hb1
            rw [show List.map FuncM.name [mainClone w] = [(mainClone w).name]
              from rfl, List.mem_singleton] at hb1
            subst hb1
            exact hfresh ha1
          have hb2 : ∀ y ∈ d.funcs ++ [mainClone w], y = mainClone w ∨
              (ReachableFrom src w y ∧ y ≠ w) := by
            intro y hy
            rcases List.mem_append.mp hy with h1 | h1
            · exact hb y h1
            · rw [List.mem_singleton] at h1
              exact Or.inl h1
          have hc2 : ∀ y ∈ d.funcs ++ [mainClone w],
              ∀ g ∈ y.refs.filterMap src.lookupFunc,
              inDest w { d with funcs := d.funcs ++ [mainClone w] } g ∨
                g ∈ (w.refs.filterMap src.lookupFunc).reverse ++ rest := by
            intro y hy g hg
            rcases List.mem_append.mp hy with h1 | h1
            · rcases hc y h1 g hg with h2 | h2
              · exact Or.inl (inDest_append _ h2)
              · rcases List.mem_cons.mp h2 with rfl | h3
                · left
                  unfold inDest
                  rw [if_pos rfl]
                  exact List.mem_append_right _ (by simp)
                · exact Or.inr (List.mem_append_right _ h3)
            · rw [List.mem_singleton] at h1
              subst h1
              right
              exact List.mem_append_left _ (List.mem_reverse.mpr hg)
          have hd2 : inDest w { d with funcs := d.funcs ++ [mainClone w] } w ∨
              w ∈ (w.refs.filterMap src.lookupFunc).reverse ++ rest := by
            left
            unfold inDest
            rw [if_pos rfl]
            exact List.mem_append_right _ (by simp)
          exact ih _ _ _ hws2 hcnt2 hbE2 ha2 hb2 hc2 hd2 h
        · have hwnE : w ≠ entry := fun hcon => hwn (by rw [hcon])
          rw [if_neg hwn] at h
          have hfresh : w.name ∉ d.funcs.map FuncM.name := by
            intro hin
            obtain ⟨y, hy, hyn⟩ := List.mem_map.mp hin
            exact lookupFunc_none hlk y hy hyn
          rw [insertFunc_fresh hfresh] at h
          have hEp : entry ∉ (w.refs.filterMap src.lookupFunc).reverse := by
            intro hin
            rw [List.mem_reverse] at hin
            obtain ⟨r, hr, hlk2⟩ := List.mem_filterMap.mp hin
            rw [← (lookupFunc_some hlk2).2] at hr
            exact hnoback w hwreach hr
          have hws2 : ∀ u ∈ (w.refs.filterMap src.lookupFunc).reverse ++ rest,
              ReachableFrom src entry u := by
            intro u hu
            rcases List.mem_append.mp hu with h1 | h1
            · rw [List.mem_reverse] at h1
              exact ReachableFrom.step hwreach h1
            · exact hws u (List.mem_cons_of_mem w h1)
          have hcnt2 : ((w.refs.filterMap src.lookupFunc).reverse ++ rest).count entry
              ≤ 1 := by
            rw [List.count_append, List.count_eq_zero.mpr hEp]
            have h2 := hcnt
            rw [List.count_cons] at h2
            omega
          have hbE2 : mainClone entry ∈ d.funcs ++ [w] →
              entry ∉ (w.refs.filterMap src.lookupFunc).reverse ++ rest := by
            intro hm hin
            rcases List.mem_append.mp hm with hm1 | hm2
            · rcases List.mem_append.mp hin with hin1 | hin2
              · exact hEp hin1
              · exact hbE hm1 (List.mem_cons_of_mem w hin2)
            · rw [List.mem_singleton] at hm2
              exfalso
              apply hnomain w hwreach
              rw [← hm2]
              rfl
          have ha2 : ((d.funcs ++ [w]).map FuncM.name).Nodup := by
            rw [List.map_append]
            refine List.Nodup.append ha (List.nodup_singleton _) ?_
            intro a ha1 hb1
            rw [show List.map FuncM.name [w] = [w.name] from rfl,
              List.mem_singleton] at hb1
            subst hb1
            exact hfresh ha1
          have hb2 : ∀ y ∈ d.funcs ++ [w], y = mainClone entry ∨
              (ReachableFrom src entry y ∧ y ≠ entry) := by
            intro y hy
            rcases List.mem_append.mp hy with h1 | h1
            · exact hb y h1
            · rw [List.mem_singleton] at h1
              subst h1
              exact Or.inr ⟨hwreach, hwnE⟩
          have hc2 : ∀ y ∈ d.funcs ++ [w],
              ∀ g ∈ y.refs.filterMap src.lookupFunc,
              inDest entry { d with funcs := d.funcs ++ [w] } g ∨
                g ∈ (w.refs.filterMap src.lookupFunc).reverse ++ rest := by
            intro y hy g hg
            rcases List.mem_append.mp hy with h1 | h1
            · rcases hc y h1 g hg with h2 | h2
              · exact Or.inl (inDest_append _ h2)
              · rcases List.mem_cons.mp h2 with rfl | h3
                · left
                  unfold inDest
                  rw [if_neg hwnE]
                  exact List.mem_append_right _ (by simp)
                · exact Or.inr (List.mem_append_right _ h3)
            · rw [List.mem_singleton] at h1
              subst h1
              right
              exact List.mem_append_left _ (List.mem_reverse.mpr hg)
          have hd2 : inDest entry { d with funcs := d.funcs ++ [w] } entry ∨
              entry ∈ (w.refs.filterMap src.lookupFunc).reverse ++ rest := by
            rcases hd with h1 | h1
            · exact Or.inl (inDest_append _ h1)
            · rcases List.mem_cons.mp h1 with h2 | h2
              · exact absurd h2.symm hwnE
              · exact Or.inr (List.mem_append_right _ h2)
          exact ih _ _ _ hws2 hcnt2 hbE2 ha2 hb2 hc2 hd2 h

/-- C4 (amended): for an entry function whose reachable call graph has no
symbolic reference back to the entry's name and no reachable function
named main, a successful extraction produces a destination containing
exactly the reachable functions, each exactly once — the entry through
its clone renamed main, every other reachable function verbatim, under
pairwise distinct names — propagates the version-compatibility attribute
into the destination, and returns the destination's text serialization;
extraction of any source module lacking the version-compatibility
attribute fails with the missing-attribute error. -/
theorem C4_closure_extraction (ext : Externals) (fuel : Nat) (src : ModuleM)
    (entry : FuncM) (dest : ModuleM) (txt : String)
    (hnodup : (src.funcs.map FuncM.name).Nodup)
    (hentry : entry ∈ src.funcs)
    (hnomain : ∀ f, ReachableFrom src entry f → f.name ≠ "main")
    (hnoback : ∀ f, ReachableFrom src entry f → entry.name ∉ f.refs)
    (hok : EncapsulateFuncAndSerialize ext fuel src entry = .ok (dest, txt)) :
    (∀ g, ReachableFrom src entry g → inDest entry dest g) ∧
    (∀ x ∈ dest.funcs, x = mainClone entry ∨
      (ReachableFrom src entry x ∧ x ≠ entry)) ∧
    (dest.funcs.map FuncM.name).Nodup ∧
    dest.getAttr "tf.versions" = src.getAttr "tf.versions" ∧
    txt = ext.printModule dest ∧
    (∀ (src2 : ModuleM) (e2 : FuncM) (fu : Nat),
      src2.getAttr "tf.versions" = none →
      EncapsulateFuncAndSerialize ext fu src2 e2
        = .error (missingAttributeMsg "tf.versions")) := by
  unfold EncapsulateFuncAndSerialize at hok
  cases hva : src.getAttr "tf.versions" with
  | none => rw [hva] at hok; cases hok
  | some va =>
    rw [hva] at hok
    simp only [] at hok
    cases hloop : encapsulateLoop src entry.name fuel [entry]
        { attrs := [("tf.versions", va)], funcs := [] } with
    | none => rw [hloop] at hok; cases hok
    | some d2 =>
      rw [hloop] at hok
      simp only [] at hok
      have h3 : (d2, ext.printModule d2) = (dest, txt) := by
        injection hok
      have h4 : d2 = dest := congrArg Prod.fst h3
      have h5 : ext.printModule d2 = txt := congrArg Prod.snd h3
      subst h4
      have hclo := encapsulateLoop_closure src entry hnodup hentry hnomain hnoback
        fuel [entry] { attrs := [("tf.versions", va)], funcs := [] } d2
        (by
          intro u hu
          rw [List.mem_singleton] at hu
          subst hu
          exact ReachableFrom.base)
        (by simp)
        (by intro hm; simp at hm)
        (by simp)
        (by intro x hx; simp at hx)
        (by intro x hx; simp at hx)
        (Or.inr (by simp))
        hloop
      obtain ⟨hN, hM, hR⟩ := hclo
      have hattrs := encapsulateLoop_attrs src entry.name fuel [entry] _ d2 hloop
      refine ⟨hR, hM, hN, ?_, h5.symm, ?_⟩
      · unfold ModuleM.getAttr
        rw [hattrs]
        rfl
      · intro src2 e2 fu hnone
        unfold EncapsulateFuncAndSerialize
        rw [hnone]

/-- Witness for C4 on the concrete single-function module mod0 with entry
fn: extraction succeeds, the destination holds exactly the renamed entry
clone under distinct names, and the version attribute is propagated. -/
theorem C4_closure_extraction_witness :
    ∃ dest txt,
      EncapsulateFuncAndSerialize ext0 9 mod0 (FuncM.mk "fn" [] 0)
        = .ok (dest, txt) ∧
      (∀ g, ReachableFrom mod0 (FuncM.mk "fn" [] 0) g →
        inDest (FuncM.mk "fn" [] 0) dest g) ∧
      (∀ x ∈ dest.funcs, x = mainClone (FuncM.mk "fn" [] 0) ∨
        (ReachableFrom mod0 (FuncM.mk "fn" [] 0) x ∧ x ≠ FuncM.mk "fn" [] 0)) ∧
      (dest.funcs.map FuncM.name).Nodup ∧
      dest.getAttr "tf.versions" = mod0.getAttr "tf.versions" := by
  refine ⟨_, _, rfl, ?_⟩
  have h := C4_closure_extraction ext0 9 mod0 (FuncM.mk "fn" [] 0) _ _
    (by decide) (by decide)
    (by
      intro f hf
      have hf2 : f = FuncM.mk "fn" [] 0 := by
        induction hf with
        | base => rfl
        | step h1 h2 ih =>
          rw [ih] at h2
          rw [show resolvedRefs mod0 (FuncM.mk "fn" [] 0) = [] from rfl] at h2
          exact absurd h2 (by simp)
      rw [hf2]
      decide)
    (by
      intro f hf
      have hf2 : f = FuncM.mk "fn" [] 0 := by
        induction hf with
        | base => rfl
        | step h1 h2 ih =>
          rw [ih] at h2
          rw [show resolvedRefs mod0 (FuncM.mk "fn" [] 0) = [] from rfl] at h2
          exact absurd h2 (by simp)
      rw [hf2]
      simp)
    rfl
  exact ⟨h.1, h.2.1, h.2.2.1, h.2.2.2.1⟩

/-- C7: for a rewritten launch node with an enclosing replicate parent of
R replicas and partition count 1, the replicate's devices attribute
afterwards maps the logical-core-0 alias to exactly R device strings, one
per replica in replica order, each the first entry of that replica's
execution-device row; and the execute node is wrapped in a launch whose
device is that alias. -/
theorem C7_replicate_device_assignment (ext : Externals) (dbg : Bool) (fuel : Nat)
    (mod : ModuleM) (devices : List String) (nid : Nat) (rep : Op)
    (pre post : List Op) (lf : Op) (c : String) (R : Int)
    (tda : TPUDeviceAssignment) (cb : CompileBuildOk)
    (hmarker : lf.getStrAttr "_tpu_replicate" = some c)
    (hrepname : rep.name = "tf_device.replicate")
    (hn : rep.getIntAttr "n" = some R)
    (hncpr : lf.getIntAttr "num_cores_per_replica" = some 1)
    (hres : ext.getTPUCompilationAndExecutionDevices devices R 1 = .ok tda)
    (hrows : tda.execution_devices.length = R.toNat)
    (hcb : BuildCompileOp ext dbg fuel mod lf R 1
      tda.compilation_device tda.xla_device_assignment nid = .ok cb) :
    ∃ r, Rewrite ext dbg fuel mod devices nid (some rep) pre lf post = .ok r ∧
      (∃ rep2, r.parent = some rep2 ∧
        rep2.getAttr "devices" = some (.dict
          [(ext.getDeviceAliasForLogicalCore 0,
            tda.execution_devices.map (fun row => row.headD ""))]) ∧
        (tda.execution_devices.map (fun row => row.headD "")).length = R.toNat) ∧
      (∃ ew, r.newOps.getLast? = some ew ∧ ew.name = "tf_device.launch" ∧
        ew.getStrAttr "device" = some (ext.getDeviceAliasForLogicalCore 0) ∧
        ∃ exec, ew.firstInnerOp = some exec ∧ exec.name = "tf.TPUExecute") := by
  have hnum : numReplicasOf (some rep) = R := by
    simp [numReplicasOf, replicateParentOf, hrepname, hn]
  refine ⟨rewriteSingleResult ext tda cb (some rep) pre lf post,
    Rewrite_ok_single ext dbg fuel mod devices nid (some rep) pre lf post c tda cb
      hmarker hncpr (by rw [hnum]; exact hres) (by rw [hnum]; exact hcb), ?_, ?_⟩
  · refine ⟨_, ?_, getAttr_setAttr rep "devices" _, by simp [hrows]⟩
    simp [rewriteSingleResult, AssignDevicesToReplicatedExecute, replicateParentOf,
      hrepname]
  · have hrepl : replicateParentOf (some rep) = some rep := by
      simp [replicateParentOf, hrepname]
    simp only [rewriteSingleResult, AssignDevicesToReplicatedExecute, hrepl]
    refine ⟨_, getLast?_append3_map _ _ _ _ _, ?_, ?_, ?_⟩
    · rw [mapOperands_name]
      rfl
    · rw [mapOperands_getStrAttr]
      rfl
    · rw [mapOperands_firstInnerOp]
      refine ⟨_, rfl, ?_⟩
      rw [mapOperands_name]
      rfl

/-- Witness for C7: two replicas, partition count 1; the replicate's
devices attribute maps the logical-core-0 alias to the two first-column
devices in replica order, and the execute wrapper carries the alias. -/
theorem C7_replicate_device_assignment_witness :
    ∃ r, Rewrite ext2 false 9 mod0 [] 10 (some repC7) [] (lf1 1) [] = .ok r ∧
      (∃ rep2, r.parent = some rep2 ∧
        rep2.getAttr "devices" = some (.dict
          [("TPU_REPLICATED_CORE_0", ["/TPU:0", "/TPU:2"])]) ∧
        (["/TPU:0", "/TPU:2"] : List String).length = (2 : Int).toNat) ∧
      (∃ ew, r.newOps.getLast? = some ew ∧ ew.name = "tf_device.launch" ∧
        ew.getStrAttr "device" = some "TPU_REPLICATED_CORE_0" ∧
        ∃ exec, ew.firstInnerOp = some exec ∧ exec.name = "tf.TPUExecute") :=
  C7_replicate_device_assignment ext2 false 9 mod0 [] 10 repC7 [] [] (lf1 1)
    "cluster" 2 _ _ rfl rfl rfl rfl rfl rfl rfl

/-- C6: for every launch node during descriptor construction: on success,
the metadata has exactly one argument descriptor per operand and one
result descriptor per result, each argument descriptor's kind is variable
exactly when the data type is the mutable-resource type, and its shape is
the dimension list when the operand type is ranked and unknown-rank
otherwise; an unconvertible operand type (every earlier operand having
converted and parsed) fails the build with an error naming the operand
index. -/
theorem C6_operand_descriptors (ext : Externals) (lf : Op) (nr ncpr : Int)
    (xla : Option DeviceAssignmentProto) (shardings : List AttrElem)
    (hsh : lf.getArrAttr "input_sharding" = some shardings) :
    (∀ m, SetMetadataProtoFromLaunchFuncOp ext lf nr ncpr xla = .ok m →
      m.args.length = lf.numOperands ∧
      m.retvals.length = lf.numResults ∧
      (∀ k ty sh, (lf.operandTypes.zip shardings).get? k = some (ty, sh) →
        ∃ a, m.args.get? k = some a ∧
          ConvertToDataType ty = some a.dtype ∧
          (a.kind = ArgKind.VARIABLE ↔ a.dtype = DataType.DT_RESOURCE) ∧
          a.shape = (match ty with
            | .tensor (some ds) _ => ShapeProto.dims ds
            | .tensor none _ => ShapeProto.unknownRank))) ∧
    (∀ i ty sh,
      shardings.length = lf.numOperands →
      (lf.operandTypes.zip shardings).get? i = some (ty, sh) →
      ConvertToDataType ty = none →
      (∀ j tyj shj, j < i → (lf.operandTypes.zip shardings).get? j = some (tyj, shj) →
        (ConvertToDataType tyj).isSome = true ∧
        (SetOpSharding ext shj "input_sharding" j).isOk = true) →
      SetMetadataProtoArgs ext lf = .error
        ("failed to determine operand type at index " ++ toString i
          ++ ": unsupported type")) := by
  constructor
  · intro m hm
    obtain ⟨hsm, hpm, hargs, hrv, _, _, _⟩ :=
      SetMetadataProtoFromLaunchFuncOp_ok_inv ext lf nr ncpr xla m hm
    obtain ⟨sh2, hsh2, hlen2, hloop⟩ := SetMetadataProtoArgs_ok_inv ext lf m.args hargs
    rw [hsh] at hsh2
    injection hsh2 with hsh3
    subst hsh3
    obtain ⟨os, hos, hoslen, horloop⟩ := SetMetadataProtoRetvals_ok_inv ext lf m.retvals hrv
    refine ⟨?_, ?_, ?_⟩
    · have hl := setMetadataProtoArgsLoop_ok_length ext _ 0 m.args hloop
      rw [hl, List.length_zip]
      have hot : lf.operandTypes.length = lf.numOperands := by
        simp [Op.operandTypes, Op.numOperands]
      rw [hot, hlen2, Nat.min_self]
    · have hl := setMetadataProtoRetvalsLoop_ok_length ext os 0 m.retvals horloop
      rw [hl, hoslen]
    · intro k ty sh hk
      exact setMetadataProtoArgsLoop_ok_get ext _ 0 m.args hloop k ty sh hk
  · intro i ty sh hlen hk hc hpre
    unfold SetMetadataProtoArgs
    rw [hsh]
    simp only [hlen, ne_eq, not_true_eq_false, if_false]
    have hrun := setMetadataProtoArgsLoop_unconvertible ext
      (lf.operandTypes.zip shardings) 0 i ty sh hk hc
      (fun j tyj shj hj hgj => by simpa using hpre j tyj shj hj hgj)
    simpa using hrun

/-- Witness for C6: on the concrete node lfC6 (float then resource
operand) the success conclusions hold with descriptor list mC6, and on
lfC6err (unconvertible operand at index 0) the build errors naming
index 0. -/
theorem C6_operand_descriptors_witness :
    (∃ a, mC6.args.get? 1 = some a ∧
      ConvertToDataType (MType.tensor none .resource) = some a.dtype ∧
      (a.kind = ArgKind.VARIABLE ↔ a.dtype = DataType.DT_RESOURCE) ∧
      a.shape = ShapeProto.unknownRank) ∧
    SetMetadataProtoArgs ext0 lfC6err = .error
      ("failed to determine operand type at index 0: unsupported type") :=
  ⟨(C6_operand_descriptors ext0 lfC6 1 1 none [.str "s0", .str "s1"] rfl).1
      mC6 (by rfl) |>.2.2 1 (MType.tensor none .resource) (.str "s1") rfl,
   (C6_operand_descriptors ext0 lfC6err 1 1 none [.str "s0"] rfl).2 0
      (MType.tensor none (.unsupported 0)) (.str "s0") rfl rfl rfl
      (fun j _ _ hj _ => absurd hj (by omega))⟩

/-- C5: a launch node whose input-sharding array length differs from its
operand count makes the descriptor build fail with the length-mismatch
error naming the attribute, the expected size (the operand count) and the
actual size; the whole rewrite aborts with that error having inserted
nothing (error payload: no created operations), so the launch node is
still in its block. -/
theorem C5_input_sharding_length_mismatch (ext : Externals) (dbg : Bool) (fuel : Nat)
    (mod : ModuleM) (devices : List String) (nid : Nat) (parent : Option Op)
    (pre post : List Op) (lf : Op) (c : String) (ncpr : Int)
    (shardings : List AttrElem) (sm : StepMarkerLocation) (pm : List PaddingMap)
    (tda : TPUDeviceAssignment)
    (hmarker : lf.getStrAttr "_tpu_replicate" = some c)
    (hncpr : lf.getIntAttr "num_cores_per_replica" = some ncpr)
    (hsm : SetMetadataProtoStepMarkerLocation lf = .ok sm)
    (hpm : SetMetadataProtoPaddingMap ext lf = .ok pm)
    (hres : ∀ r : Int, ext.getTPUCompilationAndExecutionDevices devices r ncpr = .ok tda)
    (hsh : lf.getArrAttr "input_sharding" = some shardings)
    (hlen : shardings.length ≠ lf.numOperands) :
    SetMetadataProtoArgs ext lf =
      .error (badArrayAttrLengthMsg "input_sharding" lf.numOperands shardings.length) ∧
    Rewrite ext dbg fuel mod devices nid parent pre lf post =
      .error (badArrayAttrLengthMsg "input_sharding" lf.numOperands shardings.length,
              []) := by
  have hargs : SetMetadataProtoArgs ext lf =
      .error (badArrayAttrLengthMsg "input_sharding" lf.numOperands shardings.length) := by
    simp [SetMetadataProtoArgs, hsh, hlen]
  refine ⟨hargs, ?_⟩
  have hmeta : ∀ (nr : Int) (xla : Option DeviceAssignmentProto),
      SetMetadataProtoFromLaunchFuncOp ext lf nr ncpr xla =
        .error (badArrayAttrLengthMsg "input_sharding" lf.numOperands
          shardings.length) := by
    intro nr xla
    simp [SetMetadataProtoFromLaunchFuncOp, hsm, hpm, hargs]
  have hbc : ∀ (nr : Int) (cdev : String) (xla : Option DeviceAssignmentProto),
      BuildCompileOp ext dbg fuel mod lf nr ncpr cdev xla nid =
        .error (badArrayAttrLengthMsg "input_sharding" lf.numOperands
          shardings.length, []) := by
    intro nr cdev xla
    simp [BuildCompileOp, hmeta]
  simp [Rewrite, hmarker, hncpr, hres, hbc]

/-- Witness for C5: three operands, an input-sharding array of length
two; the reported error names input_sharding, expected size 3, actual
size 2, and the rewrite fails without inserting anything. -/
theorem C5_input_sharding_length_mismatch_witness :
    SetMetadataProtoArgs ext0 lfMismatch =
      .error (badArrayAttrLengthMsg "input_sharding" 3 2) ∧
    Rewrite ext0 false 5 mod0 [] 50 none [] lfMismatch [] =
      .error (badArrayAttrLengthMsg "input_sharding" 3 2, []) :=
  C5_input_sharding_length_mismatch ext0 false 5 mod0 [] 50 none [] []
    lfMismatch "cluster" 1 [.str "s0", .str "s1"] .STEP_MARK_AT_ENTRY []
    { compilation_device := "/CPU:0", execution_devices := [["/TPU:0"]],
      xla_device_assignment := none }
    rfl rfl rfl rfl (fun _ => rfl) rfl (by decide)

end TPURewrite
